import Mathlib

/-!
Verification of the marketdata consolidation engine.

This file gives a shallow embedding of the consolidation (merge) scripts
of the repository:

* `scripts/merge-monthly/monthly_utils.py` : `get_monthly_groups`,
  `is_safe_to_merge`, `merge_and_validate`
* `scripts/merge-yearly/yearly_utils.py` : `get_yearly_groups`,
  `is_past_year`, `merge_yearly_and_validate`

Data frames are modelled as a column-name list together with a list of
rows; a cell is an `Option Int` (`none` stands for a missing value /
NaN).  The filesystem is an association list from path strings to data
frames, listed in directory-enumeration order.  I/O faults (unreadable
file, corrupted write, failing delete) are injected through a `Faults`
record so that the exception paths of the Python code can be exercised.
`pandas.DataFrame.sort_values` is modelled by a stable insertion sort on
the lexicographic key drawn from the sort columns (missing values
ordered last, matching `na_position='last'`); the difference between
pandas' default quicksort and a stable sort is only visible in the
relative order of distinct rows with equal sort keys and none of the
statements below depends on it.
-/

/-! ### Cells and sort keys -/

/-- A cell of a data frame: `none` models NaN / a missing value. -/
abbrev Cell := Option Int

/-- Strict comparison of cells as `pandas` orders them when sorting:
missing values (`none`) are placed last, i.e. are greatest. -/
def cellLT : Cell → Cell → Bool
  | none, _ => false
  | some _, none => true
  | some a, some b => decide (a < b)

/-- Lexicographic comparison of sort keys (lists of cells). -/
def keyLE : List Cell → List Cell → Bool
  | [], _ => true
  | _ :: _, [] => false
  | a :: as, b :: bs => cellLT a b || (a == b && keyLE as bs)

theorem cellLT_trans {a b c : Cell} (h1 : cellLT a b = true) (h2 : cellLT b c = true) :
    cellLT a c = true := by
  cases a <;> cases b <;> cases c <;> simp_all [cellLT] <;> omega

theorem cellLT_total {a b : Cell} (hne : a ≠ b) :
    cellLT a b = true ∨ cellLT b a = true := by
  cases a <;> cases b <;> simp_all [cellLT] <;> omega

theorem cellLT_asymm {a b : Cell} (h : cellLT a b = true) : cellLT b a = false := by
  cases a <;> cases b <;> simp_all [cellLT] <;> omega

theorem keyLE_total : ∀ x y : List Cell, keyLE x y = true ∨ keyLE y x = true
  | [], _ => Or.inl rfl
  | _ :: _, [] => Or.inr rfl
  | a :: as, b :: bs => by
    by_cases hab : a = b
    · subst hab
      rcases keyLE_total as bs with h | h <;>
        simp [keyLE, h]
    · rcases cellLT_total hab with h | h
      · exact Or.inl (by simp [keyLE, h])
      · exact Or.inr (by simp [keyLE, h])

theorem keyLE_trans : ∀ {x y z : List Cell},
    keyLE x y = true → keyLE y z = true → keyLE x z = true
  | [], _, _, _, _ => rfl
  | _ :: _, [], _, h, _ => by simp [keyLE] at h
  | _ :: _, _ :: _, [], _, h => by simp [keyLE] at h
  | a :: as, b :: bs, c :: cs, h1, h2 => by
    simp only [keyLE, Bool.or_eq_true, Bool.and_eq_true, beq_iff_eq] at h1 h2 ⊢
    rcases h1 with h1 | ⟨rfl, h1⟩
    · rcases h2 with h2 | ⟨rfl, _⟩
      · exact Or.inl (cellLT_trans h1 h2)
      · exact Or.inl h1
    · rcases h2 with h2 | ⟨rfl, h2⟩
      · exact Or.inl h2
      · exact Or.inr ⟨rfl, keyLE_trans h1 h2⟩

/-! ### Rows, data frames -/

/-- A row is the list of its cells, in column order. -/
abbrev Row := List Cell

/-- A pandas `DataFrame`: named columns and a list of rows
(`reset_index(drop=True)` is implicit: rows carry no index). -/
structure DF where
  cols : List String
  rows : List Row
deriving DecidableEq, Repr

/-- Index of a column name in a column list (`DataFrame.columns.get_loc`):
position of the first occurrence. -/
def colIdx : List String → String → Option Nat
  | [], _ => none
  | c0 :: rest, c => if c0 = c then some 0 else (colIdx rest c).map (fun i => i + 1)

/-- The sort key of a row: the cells of the key columns, in key order.
Only used when every key column is present, so the `none` default of a
missing column is never read in the places the code sorts. -/
def rowKey (cols keyCols : List String) (r : Row) : List Cell :=
  keyCols.map (fun c =>
    match colIdx cols c with
    | some i => r.getD i none
    | none => none)

/-- Row comparison used by `sort_values(keyCols)`. -/
def rowLE (cols keyCols : List String) (r1 r2 : Row) : Prop :=
  keyLE (rowKey cols keyCols r1) (rowKey cols keyCols r2) = true

instance (cols keyCols : List String) : DecidableRel (rowLE cols keyCols) :=
  fun _ _ => inferInstanceAs (Decidable (_ = true))

theorem rowLE_total (cols keyCols : List String) : IsTotal Row (rowLE cols keyCols) :=
  ⟨fun a b => keyLE_total _ _⟩

theorem rowLE_trans (cols keyCols : List String) : IsTrans Row (rowLE cols keyCols) :=
  ⟨fun _ _ _ h1 h2 => keyLE_trans h1 h2⟩

/-- `df.sort_values(keyCols)` (with `reset_index(drop=True)`), modelled
as a stable sort of the rows by the lexicographic key. -/
def sortValues (keyCols : List String) (df : DF) : DF :=
  ⟨df.cols, List.insertionSort (rowLE df.cols keyCols) df.rows⟩

theorem sortValues_nilKey (df : DF) : sortValues [] df = df := by
  obtain ⟨cols, rows⟩ := df
  simp only [sortValues, DF.mk.injEq, true_and]
  induction rows with
  | nil => rfl
  | cons r rs ih =>
      simp only [List.insertionSort, ih]
      cases rs with
      | nil => rfl
      | cons r2 rs2 => simp [List.orderedInsert, rowLE, rowKey, keyLE]

/-! ### drop_duplicates -/

/-- Helper of `dropDup`: keeps the elements not seen before, first
occurrence first. -/
def dropDupAux {α : Type} [DecidableEq α] (seen : List α) : List α → List α
  | [] => []
  | x :: xs => if x ∈ seen then dropDupAux seen xs else x :: dropDupAux (x :: seen) xs

/-- `DataFrame.drop_duplicates()` on the row list: keeps the first
occurrence of every row (full-row equality; pandas treats NaN as equal
to NaN here, as does equality on `Option`).  Also models the
first-appearance enumeration order of a Python dict / directory scan. -/
def dropDup {α : Type} [DecidableEq α] (l : List α) : List α :=
  dropDupAux [] l

theorem mem_dropDupAux {α : Type} [DecidableEq α] :
    ∀ (seen l : List α) (a : α), a ∈ dropDupAux seen l ↔ (a ∈ l ∧ a ∉ seen)
  | _, [], a => by simp [dropDupAux]
  | seen, x :: xs, a => by
    by_cases hx : x ∈ seen
    · rw [dropDupAux, if_pos hx, mem_dropDupAux seen xs a]
      by_cases hax : a = x
      · subst hax; simp [hx]
      · simp [hax]
    · rw [dropDupAux, if_neg hx]
      by_cases hax : a = x
      · subst hax; simp [hx]
      · simp [mem_dropDupAux (x :: seen) xs a, hax]

theorem mem_dropDup {α : Type} [DecidableEq α] {l : List α} {a : α} :
    a ∈ dropDup l ↔ a ∈ l := by
  rw [dropDup, mem_dropDupAux]
  simp

theorem nodup_dropDupAux {α : Type} [DecidableEq α] :
    ∀ (seen l : List α), (dropDupAux seen l).Nodup
  | _, [] => List.nodup_nil
  | seen, x :: xs => by
    by_cases hx : x ∈ seen
    · rw [dropDupAux, if_pos hx]
      exact nodup_dropDupAux seen xs
    · rw [dropDupAux, if_neg hx]
      refine List.Nodup.cons ?_ (nodup_dropDupAux (x :: seen) xs)
      intro hmem
      have := (mem_dropDupAux _ _ _).mp hmem
      simp at this

theorem nodup_dropDup {α : Type} [DecidableEq α] (l : List α) : (dropDup l).Nodup :=
  nodup_dropDupAux [] l

/-- Dropping duplicates of permuted lists yields permuted (in fact
membership-equal, nodup) lists. -/
theorem dropDup_perm {α : Type} [DecidableEq α] {l1 l2 : List α} (h : l1.Perm l2) :
    (dropDup l1).Perm (dropDup l2) := by
  rw [List.perm_ext_iff_of_nodup (nodup_dropDup l1) (nodup_dropDup l2)]
  intro a
  rw [mem_dropDup, mem_dropDup]
  exact ⟨fun ha => h.mem_iff.mp ha, fun ha => h.mem_iff.mpr ha⟩

/-! ### Path strings -/

/-- Lexicographic comparison of character lists by code point: exactly
how Python compares the path strings in `sorted(files)`. -/
def pathLE : List Char → List Char → Bool
  | [], _ => true
  | _ :: _, [] => false
  | a :: as, b :: bs => decide (a < b) || (a == b && pathLE as bs)

/-- The ordering `sorted(files)` uses, on whole paths. -/
def fileLE (s1 s2 : String) : Prop :=
  pathLE s1.data s2.data = true

instance : DecidableRel fileLE :=
  fun _ _ => inferInstanceAs (Decidable (_ = true))

theorem pathLE_total : ∀ x y : List Char, pathLE x y = true ∨ pathLE y x = true
  | [], _ => Or.inl rfl
  | _ :: _, [] => Or.inr rfl
  | a :: as, b :: bs => by
    by_cases hab : a = b
    · subst hab
      rcases pathLE_total as bs with h | h <;> simp [pathLE, h]
    · rcases lt_trichotomy a b with h | h | h
      · exact Or.inl (by simp [pathLE, h])
      · exact absurd h hab
      · exact Or.inr (by simp [pathLE, h])

theorem pathLE_trans : ∀ {x y z : List Char},
    pathLE x y = true → pathLE y z = true → pathLE x z = true
  | [], _, _, _, _ => rfl
  | _ :: _, [], _, h, _ => by simp [pathLE] at h
  | _ :: _, _ :: _, [], _, h => by simp [pathLE] at h
  | a :: as, b :: bs, c :: cs, h1, h2 => by
    simp only [pathLE, Bool.or_eq_true, Bool.and_eq_true, beq_iff_eq,
      decide_eq_true_eq] at h1 h2 ⊢
    rcases h1 with h1 | ⟨rfl, h1⟩
    · rcases h2 with h2 | ⟨rfl, _⟩
      · exact Or.inl (lt_trans h1 h2)
      · exact Or.inl h1
    · rcases h2 with h2 | ⟨rfl, h2⟩
      · exact Or.inl h2
      · exact Or.inr ⟨rfl, pathLE_trans h1 h2⟩

theorem pathLE_antisymm : ∀ {x y : List Char},
    pathLE x y = true → pathLE y x = true → x = y
  | [], [], _, _ => rfl
  | [], _ :: _, _, h => by simp [pathLE] at h
  | _ :: _, [], h, _ => by simp [pathLE] at h
  | a :: as, b :: bs, h1, h2 => by
    simp only [pathLE, Bool.or_eq_true, Bool.and_eq_true, beq_iff_eq,
      decide_eq_true_eq] at h1 h2
    rcases h1 with h1 | ⟨rfl, h1⟩
    · rcases h2 with h2 | ⟨rfl, _⟩
      · exact absurd h2 (lt_asymm h1)
      · exact absurd h1 (lt_irrefl _)
    · rcases h2 with h2 | ⟨_, h2⟩
      · exact absurd h2 (lt_irrefl _)
      · rw [pathLE_antisymm h1 h2]

theorem fileLE_total : IsTotal String fileLE :=
  ⟨fun a b => pathLE_total a.data b.data⟩

theorem fileLE_trans : IsTrans String fileLE :=
  ⟨fun _ _ _ h1 h2 => pathLE_trans h1 h2⟩

theorem fileLE_antisymm : IsAntisymm String fileLE :=
  ⟨fun a b h1 h2 => by
    cases a; cases b
    exact congrArg String.mk (pathLE_antisymm h1 h2)⟩

/-- `sorted(files)` (the first statement of both merge functions). -/
def sortFiles (files : List String) : List String :=
  List.insertionSort fileLE files

/-- Split a character list at every occurrence of `sep`: Python
`str.split` with a one-character separator. -/
def splitChar (sep : Char) : List Char → List (List Char)
  | [] => [[]]
  | c :: cs =>
    if c = sep then [] :: splitChar sep cs
    else
      match splitChar sep cs with
      | [] => [[c]]
      | h :: t => (c :: h) :: t

/-- Python `s.split(sep)` for a one-character separator, on strings. -/
def strSplit (sep : Char) (s : String) : List String :=
  (splitChar sep s.data).map (fun l => String.mk l)

/-! ### Filesystem model -/

/-- The filesystem: an association list of path → parquet content, in
directory-enumeration order. -/
abbrev FS := List (String × DF)

/-- Content of a parquet file (`pd.read_parquet` source of truth). -/
def FS.lookup : FS → String → Option DF
  | [], _ => none
  | e :: rest, p => if e.1 = p then some e.2 else FS.lookup rest p

/-- `Path.exists()`. -/
def FS.pathExists : FS → String → Bool
  | [], _ => false
  | e :: rest, p => e.1 = p || FS.pathExists rest p

/-- `os.remove(p)` (on an existing file). -/
def FS.remove : FS → String → FS
  | [], _ => []
  | e :: rest, p => if e.1 = p then FS.remove rest p else e :: FS.remove rest p

/-- `DataFrame.to_parquet(p)`: overwrites an existing file in place or
creates a new directory entry. -/
def FS.write (fs : FS) (p : String) (df : DF) : FS :=
  if fs.pathExists p then fs.map (fun e => if e.1 = p then (p, df) else e)
  else fs ++ [(p, df)]

theorem FS.lookup_append (fs1 fs2 : FS) (p : String) :
    FS.lookup (fs1 ++ fs2) p =
      ((FS.lookup fs1 p).rec (FS.lookup fs2 p) (fun df => some df) : Option DF) := by
  induction fs1 with
  | nil => simp [FS.lookup]
  | cons e rest ih =>
      by_cases he : e.1 = p <;> simp [FS.lookup, he, ih]

theorem FS.lookup_write_self (fs : FS) (p : String) (df : DF) :
    (fs.write p df).lookup p = some df := by
  unfold FS.write
  by_cases h : fs.pathExists p = true
  · simp only [h, if_true]
    induction fs with
    | nil => simp [FS.pathExists] at h
    | cons e rest ih =>
        by_cases he : e.1 = p
        · simp [FS.lookup, he]
        · simp only [FS.pathExists, Bool.or_eq_true, decide_eq_true_eq] at h
          rcases h with h | h
          · exact absurd h he
          · simpa [FS.lookup, he] using ih h
  · simp only [h, if_false]
    induction fs with
    | nil => simp [FS.lookup]
    | cons e rest ih =>
        simp only [FS.pathExists, Bool.or_eq_true, decide_eq_true_eq] at h
        push_neg at h
        simpa [FS.lookup, h.1] using ih (by simpa using h.2)

theorem FS.lookup_map_replace (fs : FS) (p q : String) (df : DF) (h : q ≠ p) :
    FS.lookup (fs.map (fun e => if e.1 = p then (p, df) else e)) q = fs.lookup q := by
  induction fs with
  | nil => rfl
  | cons e rest ih =>
      by_cases he : e.1 = p
      · have hpq : ¬ (p = q) := fun hh => h hh.symm
        have heq : ¬ (e.1 = q) := by rw [he]; exact hpq
        simp [FS.lookup, he, hpq, heq, ih]
      · by_cases hq : e.1 = q <;> simp [FS.lookup, he, hq, ih, h, Ne.symm h]

theorem FS.lookup_write_other (fs : FS) (p q : String) (df : DF) (h : q ≠ p) :
    (fs.write p df).lookup q = fs.lookup q := by
  unfold FS.write
  by_cases hex : fs.pathExists p
  · rw [if_pos hex]
    exact FS.lookup_map_replace fs p q df h
  · rw [if_neg hex]
    rw [FS.lookup_append]
    have : FS.lookup [(p, df)] q = none := by
      simp [FS.lookup]
      exact Ne.symm h
    rw [this]
    cases FS.lookup fs q <;> rfl

theorem FS.lookup_remove_other (fs : FS) (p q : String) (h : q ≠ p) :
    (fs.remove p).lookup q = fs.lookup q := by
  induction fs with
  | nil => rfl
  | cons e rest ih =>
      by_cases he : e.1 = p
      · have : ¬ (e.1 = q) := by rw [he]; exact fun hh => h hh.symm
        simp [FS.remove, FS.lookup, he, this, ih, h, Ne.symm h]
      · by_cases hq : e.1 = q <;> simp [FS.remove, FS.lookup, he, hq, ih, h, Ne.symm h]

theorem FS.pathExists_remove_self (fs : FS) (p : String) :
    (fs.remove p).pathExists p = false := by
  induction fs with
  | nil => rfl
  | cons e rest ih =>
      by_cases he : e.1 = p <;> simp [FS.remove, FS.pathExists, he, ih]

theorem FS.pathExists_write_self (fs : FS) (p : String) (df : DF) :
    (fs.write p df).pathExists p = true := by
  unfold FS.write
  by_cases h : fs.pathExists p = true
  · simp only [h, if_true]
    induction fs with
    | nil => simp [FS.pathExists] at h
    | cons e rest ih =>
        by_cases he : e.1 = p
        · simp [FS.pathExists, he]
        · simp only [FS.pathExists, Bool.or_eq_true, decide_eq_true_eq] at h
          rcases h with h | h
          · exact absurd h he
          · simpa [FS.pathExists, he] using ih h
  · simp only [h, if_false]
    induction fs with
    | nil => simp [FS.pathExists]
    | cons e rest ih =>
        simp only [FS.pathExists, Bool.or_eq_true, decide_eq_true_eq] at h
        push_neg at h
        simpa [FS.pathExists, h.1] using ih (by simpa using h.2)

/-! ### Fault injection -/

/-- Injected I/O faults.  `readFail p` makes `pd.read_parquet(p)` raise;
`writeAs df` is the frame that actually lands on disk when `df` is
written (`id` for a faithful write, anything else simulates silent
serialization corruption); `removeFail p` makes `os.remove(p)` raise. -/
structure Faults where
  readFail : String → Bool
  writeAs : DF → DF
  removeFail : String → Bool

/-- A fault-free environment. -/
def noFaults : Faults :=
  ⟨fun _ => false, id, fun _ => false⟩

/-! ### The merge protocol -/

/-- How a run of `merge_and_validate` / `merge_yearly_and_validate`
ended.  Ghost instrumentation naming the exit path of the Python code:
the first five are the `except` / early-`return` paths, `verifyFail`
is `assert_frame_equal` raising, `cleanupFail` is `os.remove` of an
input shard raising, `ok` is the `return True` path. -/
inductive MergeExit
  | readFail | emptyInput | sortFail | readBackFail | sortBackFail
  | verifyFail | cleanupFail | ok
deriving DecidableEq, Repr

/-- Result of a run: final filesystem, returned boolean, plus ghost
fields: `verified` is true exactly when the `assert_frame_equal`
comparison succeeded, `deletedInputs` lists the input shards actually
deleted (in deletion order), `exit` names the exit path. -/
structure RunResult where
  fs : FS
  ret : Bool
  verified : Bool
  deletedInputs : List String
  exit : MergeExit
deriving DecidableEq, Repr

/-- The `[pd.read_parquet(f) for f in files]` comprehension: raises
(returns `none`) at the first unreadable or missing file. -/
def readAll (flt : Faults) (fs : FS) : List String → Option (List DF)
  | [] => some []
  | f :: rest =>
    if flt.readFail f then none
    else
      match fs.lookup f with
      | none => none
      | some df => (readAll flt fs rest).map (fun dfs => df :: dfs)

/-- `pd.concat(dfs, ignore_index=True)` columns: the first frame's
columns, then columns not yet seen in order of appearance
(`sort=False`). -/
def unionCols (dfs : List DF) : List String :=
  dfs.foldl (fun acc df => acc ++ df.cols.filter (fun c => ¬ acc.contains c)) []

/-- Reindexing one row from its own columns to the concatenated column
set; cells of absent columns become NaN. -/
def reindexRow (oldCols newCols : List String) (r : Row) : Row :=
  newCols.map (fun c =>
    match colIdx oldCols c with
    | some i => r.getD i none
    | none => none)

/-- `pd.concat(dfs, ignore_index=True)`. -/
def concatDFs (dfs : List DF) : DF :=
  let cols := unionCols dfs
  ⟨cols, dfs.flatMap (fun df => df.rows.map (reindexRow df.cols cols))⟩

/-- The `daily_combined = pd.concat(dfs, ignore_index=True)` followed by
`drop_duplicates()`. -/
def mergedTable (dfs : List DF) : DF :=
  ⟨(concatDFs dfs).cols, dropDup (concatDFs dfs).rows⟩

/-- The `for f in files: os.remove(f)` cleanup loop: removes files until
the first failing or already-missing one raises.  Returns the
filesystem as left behind, the files removed, and whether the loop
completed. -/
def removeAll (flt : Faults) : FS → List String → FS × List String × Bool
  | fs, [] => (fs, [], true)
  | fs, f :: rest =>
    if flt.removeFail f || ¬ fs.pathExists f then (fs, [], false)
    else
      let r := removeAll flt (fs.remove f) rest
      (r.1, f :: r.2.1, r.2.2)

/-- The shared `except Exception` handler of both merge functions, for
the exits at which `output_file` is already in `locals()`: if the
candidate artifact exists it is removed (a failure of that removal is
swallowed by the inner bare `except`), and the function returns
`False`. -/
def rollback (flt : Faults) (fs : FS) (output : String) (e : MergeExit)
    (verified : Bool) (deleted : List String) : RunResult :=
  if fs.pathExists output then
    if flt.removeFail output then ⟨fs, false, verified, deleted, e⟩
    else ⟨fs.remove output, false, verified, deleted, e⟩
  else ⟨fs, false, verified, deleted, e⟩

/-- Common body of `merge_and_validate` (monthly_utils.py lines 65-128)
and `merge_yearly_and_validate` (yearly_utils.py lines 64-133).  The two
functions differ only in the output path and in the sort step applied to
the merged table (`sortStep`) and to the re-read candidate (`sortBack`);
a sort step returns `none` when it raises (`KeyError` on a missing sort
column, monthly tier only).  Exits before the output path is assigned
leave the filesystem untouched; later exceptions go through `rollback`. -/
def mergeCore (flt : Faults) (fs : FS) (files0 : List String) (output : String)
    (sortStep sortBack : DF → Option DF) : RunResult :=
  let files := sortFiles files0
  match readAll flt fs files with
  | none => ⟨fs, false, false, [], .readFail⟩
  | some dfs =>
    if dfs.isEmpty then ⟨fs, false, false, [], .emptyInput⟩
    else
      match sortStep (mergedTable dfs) with
      | none => ⟨fs, false, false, [], .sortFail⟩
      | some combined =>
        let fs1 := fs.write output (flt.writeAs combined)
        if flt.readFail output then rollback flt fs1 output .readBackFail false []
        else
          let saved := (fs1.lookup output).getD ⟨[], []⟩
          match sortBack saved with
          | none => rollback flt fs1 output .sortBackFail false []
          | some savedSorted =>
            if combined = savedSorted then
              let r := removeAll flt fs1 files
              if r.2.2 then ⟨r.1, true, true, r.2.1, .ok⟩
              else rollback flt r.1 output .cleanupFail true r.2.1
            else rollback flt fs1 output .verifyFail false []

/-- Monthly sort step (monthly_utils.py lines 85-88 and 103-106): sorts
by the configured columns whenever `sort_columns` is non-empty; pandas
`sort_values` raises `KeyError` (`none`) if any of them is missing. -/
def sortStepMonthly (sortCols : List String) (df : DF) : Option DF :=
  if sortCols.isEmpty then some df
  else if sortCols.all (fun c => df.cols.contains c) then some (sortValues sortCols df)
  else none

/-- Yearly forward sort step (yearly_utils.py lines 84-93): keeps only
the sort columns present; if none are present it skips the sort with a
warning instead of failing. -/
def sortStepYearly (sortCols : List String) (df : DF) : DF :=
  if sortCols.isEmpty then df
  else
    let available := sortCols.filter (fun c => df.cols.contains c)
    if available.isEmpty then df
    else sortValues available df

/-- Yearly read-back sort step (yearly_utils.py lines 107-111): filters
to the available columns and sorts without the emptiness guard
(`sort_values([])` is a no-op copy in pandas). -/
def sortBackYearly (sortCols : List String) (df : DF) : DF :=
  if sortCols.isEmpty then df
  else sortValues (sortCols.filter (fun c => df.cols.contains c)) df

/-- `month_key.split('-')[0]` (monthly_utils.py line 91). -/
def yearOfMonthKey (monthKey : String) : String :=
  (strSplit '-' monthKey).headD ""

/-- Output path of the monthly tier: `target_dir/YYYY/YYYY-MM.parquet`. -/
def monthlyOutputPath (targetDir monthKey : String) : String :=
  targetDir ++ "/" ++ yearOfMonthKey monthKey ++ "/" ++ monthKey ++ ".parquet"

/-- Output path of the yearly tier: `target_dir/YYYY/YYYY.parquet`. -/
def yearlyOutputPath (targetDir yearKey : String) : String :=
  targetDir ++ "/" ++ yearKey ++ "/" ++ yearKey ++ ".parquet"

/-- `merge_and_validate(month_key, files, target_dir, sort_columns)`
(monthly_utils.py lines 65-128). -/
def merge_and_validate (flt : Faults) (fs : FS) (monthKey : String)
    (files : List String) (targetDir : String) (sortCols : List String) : RunResult :=
  mergeCore flt fs files (monthlyOutputPath targetDir monthKey)
    (fun df => sortStepMonthly sortCols df) (fun df => sortStepMonthly sortCols df)

/-- `merge_yearly_and_validate(year_key, files, target_dir, sort_columns)`
(yearly_utils.py lines 64-133). -/
def merge_yearly_and_validate (flt : Faults) (fs : FS) (yearKey : String)
    (files : List String) (targetDir : String) (sortCols : List String) : RunResult :=
  mergeCore flt fs files (yearlyOutputPath targetDir yearKey)
    (fun df => some (sortStepYearly sortCols df))
    (fun df => some (sortBackYearly sortCols df))

/-! ### Shard catalog -/

/-- Last component of a path. -/
def lastComponent (p : String) : String :=
  (strSplit '/' p).getLastD p

/-- `Path.stem` of a `*.parquet` file: the file name with the final
`.parquet` suffix (8 characters) removed. -/
def stemOf (p : String) : String :=
  let name := (lastComponent p).data
  String.mk (name.take (name.length - 8))

/-- `p` is a directory entry directly inside `dir`. -/
def isDirectChild (dir p : String) : Bool :=
  (dir.data ++ ['/']).isPrefixOf p.data
    && ¬ (p.data.drop (dir.data.length + 1)).contains '/'

/-- `dir.glob('*.parquet')`: the parquet files directly inside `dir`,
in directory-enumeration order (the order of the filesystem listing;
`pathlib` promises no particular order). -/
def globParquet (fs : FS) (dir : String) : List String :=
  (fs.map (fun e => e.1)).filter
    (fun p => isDirectChild dir p && List.isSuffixOf ".parquet".data p.data)

/-- All characters are decimal digits and there is at least one. -/
def allDigits (l : List Char) : Bool :=
  ¬ l.isEmpty && l.all Char.isDigit

/-- The regex `^(\d{4})-(\d{2})-\d{2}$` of `get_monthly_groups`, giving
back the two captured groups (year, month). -/
def matchDaily (s : String) : Option (String × String) :=
  match splitChar '-' s.data with
  | [y, m, d] =>
    if y.length = 4 && m.length = 2 && d.length = 2
        && allDigits y && allDigits m && allDigits d
    then some (String.mk y, String.mk m) else none
  | _ => none

/-- The regex `^(\d{4})-(\d{2})$` of `get_yearly_groups`. -/
def matchMonthly (s : String) : Option (String × String) :=
  match splitChar '-' s.data with
  | [y, m] =>
    if y.length = 4 && m.length = 2 && allDigits y && allDigits m
    then some (String.mk y, String.mk m) else none
  | _ => none

/-- `groups[key].append(f)` on an insertion-ordered dict, creating the
key on first use. -/
def addToGroup (gs : List (String × List String)) (k : String) (f : String) :
    List (String × List String) :=
  match gs with
  | [] => [(k, [f])]
  | (k0, ps) :: rest =>
    if k0 = k then (k0, ps ++ [f]) :: rest else (k0, ps) :: addToGroup rest k f

/-- `groups.get(k, [])` of the resulting dict. -/
def lookupGroup (gs : List (String × List String)) (k : String) : List String :=
  match gs with
  | [] => []
  | (k0, ps) :: rest => if k0 = k then ps else lookupGroup rest k

/-- The month key a daily shard file contributes to, if its stem
matches the date pattern. -/
def monthKeyOfFile (f : String) : Option String :=
  (matchDaily (stemOf f)).map (fun g => g.1 ++ "-" ++ g.2)

/-- The year key a monthly shard file contributes to, if its stem
matches the month pattern (the key is the stem's year, not the
directory name). -/
def yearKeyOfFile (f : String) : Option String :=
  (matchMonthly (stemOf f)).map (fun g => g.1)

/-- `get_monthly_groups(data_dir, year)` (monthly_utils.py lines 24-44):
scans `data_dir/year/*.parquet` and groups daily files by month.  A
missing year directory yields no glob hits, hence the same empty dict
as the early return of the code. -/
def get_monthly_groups (fs : FS) (dataDir year : String) : List (String × List String) :=
  (globParquet fs (dataDir ++ "/" ++ year)).foldl
    (fun gs f =>
      match monthKeyOfFile f with
      | some k => addToGroup gs k f
      | none => gs) []

/-- Python `int(s)` succeeds on a directory name (sign and surrounding
whitespace omitted: directory names never carry them here). -/
def isIntString (s : String) : Bool :=
  allDigits s.data

/-- The subdirectories of `data_dir`, modelled as the first path
component below `data_dir` of each entry, in first-appearance order
(`data_dir.glob('*')` with the `is_dir()` filter). -/
def subdirsOf (fs : FS) (dataDir : String) : List String :=
  dropDup ((fs.map (fun e => e.1)).filterMap (fun p =>
    if (dataDir.data ++ ['/']).isPrefixOf p.data then
      let rest := p.data.drop (dataDir.data.length + 1)
      if rest.contains '/' then some (String.mk (rest.takeWhile (fun c => ¬ c = '/')))
      else none
    else none))

/-- `get_yearly_groups(data_dir)` (yearly_utils.py lines 24-50): scans
every integer-named year directory for `YYYY-MM.parquet` files and
groups them by the stem's year. -/
def get_yearly_groups (fs : FS) (dataDir : String) : List (String × List String) :=
  (subdirsOf fs dataDir).foldl
    (fun gs d =>
      if isIntString d then
        (globParquet fs (dataDir ++ "/" ++ d)).foldl
          (fun gs2 f =>
            match yearKeyOfFile f with
            | some k => addToGroup gs2 k f
            | none => gs2) gs
      else gs) []

/-! ### Dates and safety gates -/

/-- Leap year (proleptic Gregorian, as `datetime.date`). -/
def isLeap (y : Int) : Bool :=
  (y % 4 == 0 && y % 100 != 0) || y % 400 == 0

/-- Days in the months before month `m` of year `y`. -/
def daysBeforeMonth (y m : Int) : Int :=
  (if m = 1 then 0 else if m = 2 then 31 else if m = 3 then 59
   else if m = 4 then 90 else if m = 5 then 120 else if m = 6 then 151
   else if m = 7 then 181 else if m = 8 then 212 else if m = 9 then 243
   else if m = 10 then 273 else if m = 11 then 304 else if m = 12 then 334
   else 0)
  + (if 3 ≤ m ∧ isLeap y then 1 else 0)

/-- Number of days in month `m` of year `y`. -/
def daysInMonth (y m : Int) : Int :=
  if m = 2 then (if isLeap y then 29 else 28)
  else if m = 4 ∨ m = 6 ∨ m = 9 ∨ m = 11 then 30
  else 31

/-- `datetime.date(y, m, d).toordinal()`: days since 0000-12-31 of the
proleptic Gregorian calendar.  Dates compare exactly as their
ordinals. -/
def rataDie (y m d : Int) : Int :=
  365 * (y - 1) + (y - 1) / 4 - (y - 1) / 100 + (y - 1) / 400 + daysBeforeMonth y m + d

/-- `datetime.date(y, m, d)` succeeds (otherwise `ValueError`). -/
def dateValid (y m d : Int) : Bool :=
  1 ≤ y && y ≤ 9999 && 1 ≤ m && m ≤ 12 && 1 ≤ d && d ≤ daysInMonth y m

/-- Decimal value of a digit string. -/
def digitsVal (l : List Char) : Nat :=
  l.foldl (fun acc c => 10 * acc + (c.toNat - 48)) 0

/-- Python `int(s)` on a plain digit string: `none` models the
`ValueError` on anything else. -/
def strToNat (l : List Char) : Option Nat :=
  if allDigits l then some (digitsVal l) else none

/-- The `year, month = map(int, month_str.split('-'))` parse of
`is_safe_to_merge`: exactly two dash-separated decimal fields (any
other shape raises and is caught by the handler). -/
def parseMonthStr (s : String) : Option (Int × Int) :=
  match splitChar '-' s.data with
  | [a, b] =>
    match strToNat a, strToNat b with
    | some ya, some mb => some ((ya : Int), (mb : Int))
    | _, _ => none
  | _ => none

/-- `is_safe_to_merge(month_str, days_wait=5)` (monthly_utils.py lines
46-63), with `date.today()` injected as its ordinal `todayRD`: true
when today is at least `days_wait` days past the first day of the month
after `month_str`; any exception (parse failure, invalid date
construction) yields `False` with a warning. -/
def is_safe_to_merge (todayRD : Int) (month_str : String) (days_wait : Int := 5) : Bool :=
  match parseMonthStr month_str with
  | none => false
  | some (year, month) =>
    if month = 12 then
      if dateValid (year + 1) 1 1 then todayRD ≥ rataDie (year + 1) 1 1 + days_wait
      else false
    else
      if dateValid year (month + 1) 1 then todayRD ≥ rataDie year (month + 1) 1 + days_wait
      else false

/-- Python `int(s)` for the year strings of `is_past_year`: an optional
sign followed by decimal digits. -/
def pyInt (s : String) : Option Int :=
  match s.data with
  | '-' :: rest => (strToNat rest).map (fun n => -(n : Int))
  | '+' :: rest => (strToNat rest).map (fun n => (n : Int))
  | l => (strToNat l).map (fun n => (n : Int))

/-- `is_past_year(year_str)` (yearly_utils.py lines 52-62), with
`date.today().year` injected: true when the string parses as a year
strictly before the current one; a parse failure warns and yields
`False`. -/
def is_past_year (todayYear : Int) (year_str : String) : Bool :=
  match pyInt year_str with
  | some y => decide (y < todayYear)
  | none => false

/-! ### Protocol lemmas -/

theorem FS.pathExists_remove_other (fs : FS) (p q : String) (h : q ≠ p) :
    (fs.remove p).pathExists q = fs.pathExists q := by
  induction fs with
  | nil => rfl
  | cons e rest ih =>
      by_cases he : e.1 = p
      · have : ¬ (e.1 = q) := by rw [he]; exact fun hh => h hh.symm
        simp [FS.remove, FS.pathExists, he, this, ih, h, Ne.symm h]
      · by_cases hq : e.1 = q <;>
          simp [FS.remove, FS.pathExists, he, hq, ih, h, Ne.symm h]

theorem rollback_fields (flt : Faults) (fs : FS) (output : String) (e : MergeExit)
    (v : Bool) (d : List String) :
    (rollback flt fs output e v d).ret = false
    ∧ (rollback flt fs output e v d).verified = v
    ∧ (rollback flt fs output e v d).deletedInputs = d
    ∧ (rollback flt fs output e v d).exit = e := by
  unfold rollback
  split <;> [skip; exact ⟨rfl, rfl, rfl, rfl⟩]
  split <;> exact ⟨rfl, rfl, rfl, rfl⟩

theorem rollback_lookup (flt : Faults) (fs : FS) (output : String) (e : MergeExit)
    (v : Bool) (d : List String) (q : String) (h : q ≠ output) :
    (rollback flt fs output e v d).fs.lookup q = fs.lookup q := by
  unfold rollback
  split
  · split
    · rfl
    · exact FS.lookup_remove_other fs output q h
  · rfl

theorem rollback_gone (flt : Faults) (fs : FS) (output : String) (e : MergeExit)
    (v : Bool) (d : List String) (hex : fs.pathExists output = true)
    (hrm : flt.removeFail output = false) :
    (rollback flt fs output e v d).fs.pathExists output = false := by
  unfold rollback
  rw [if_pos hex, if_neg (by rw [hrm]; exact Bool.false_ne_true)]
  exact FS.pathExists_remove_self fs output

/-- Removing a list of files, as `removeAll` does on success. -/
def remFold (fs : FS) (l : List String) : FS :=
  l.foldl FS.remove fs

theorem removeAll_complete (flt : Faults) :
    ∀ (l : List String) (fs : FS), l.Nodup →
      (∀ f ∈ l, flt.removeFail f = false) → (∀ f ∈ l, fs.pathExists f = true) →
      removeAll flt fs l = (remFold fs l, l, true)
  | [], fs, _, _, _ => rfl
  | f :: rest, fs, hnd, hrm, hex => by
    have hf : flt.removeFail f = false := hrm f (List.mem_cons_self f rest)
    have hfe : fs.pathExists f = true := hex f (List.mem_cons_self f rest)
    rw [removeAll, if_neg (by simp [hf, hfe])]
    have hrest := removeAll_complete flt rest (fs.remove f)
      (List.Nodup.of_cons hnd)
      (fun g hg => hrm g (List.mem_cons_of_mem f hg))
      (fun g hg => by
        rw [FS.pathExists_remove_other fs f g
          (fun hgf => (List.nodup_cons.mp hnd).1 (hgf ▸ hg))]
        exact hex g (List.mem_cons_of_mem f hg))
    rw [hrest]
    rfl

theorem lookup_remFold_not_mem :
    ∀ (l : List String) (fs : FS) (q : String), q ∉ l →
      (remFold fs l).lookup q = fs.lookup q
  | [], _, _, _ => rfl
  | f :: rest, fs, q, h => by
    rw [remFold, List.foldl_cons]
    have : (remFold (fs.remove f) rest).lookup q = (fs.remove f).lookup q :=
      lookup_remFold_not_mem rest (fs.remove f) q (fun hq => h (List.mem_cons_of_mem f hq))
    rw [remFold] at this
    rw [this, FS.lookup_remove_other fs f q (fun hq => h (hq ▸ List.mem_cons_self f rest))]

/-! ### Equation lemmas for the exits of mergeCore -/

theorem mergeCore_eq_readFail {flt : Faults} {fs : FS} {files0 : List String}
    {output : String} {sF sB : DF → Option DF}
    (h : readAll flt fs (sortFiles files0) = none) :
    mergeCore flt fs files0 output sF sB = ⟨fs, false, false, [], .readFail⟩ := by
  unfold mergeCore
  simp only [h]

theorem mergeCore_eq_empty {flt : Faults} {fs : FS} {files0 : List String}
    {output : String} {sF sB : DF → Option DF} {dfs : List DF}
    (h : readAll flt fs (sortFiles files0) = some dfs) (he : dfs.isEmpty = true) :
    mergeCore flt fs files0 output sF sB = ⟨fs, false, false, [], .emptyInput⟩ := by
  unfold mergeCore
  simp only [h, he, if_true]

theorem mergeCore_eq_sortFail {flt : Faults} {fs : FS} {files0 : List String}
    {output : String} {sF sB : DF → Option DF} {dfs : List DF}
    (h : readAll flt fs (sortFiles files0) = some dfs) (he : dfs.isEmpty = false)
    (hs : sF (mergedTable dfs) = none) :
    mergeCore flt fs files0 output sF sB = ⟨fs, false, false, [], .sortFail⟩ := by
  unfold mergeCore
  simp only [h, he, hs, Bool.false_eq_true, if_false]

theorem mergeCore_eq_readBackFail {flt : Faults} {fs : FS} {files0 : List String}
    {output : String} {sF sB : DF → Option DF} {dfs : List DF} {combined : DF}
    (h : readAll flt fs (sortFiles files0) = some dfs) (he : dfs.isEmpty = false)
    (hs : sF (mergedTable dfs) = some combined) (hrb : flt.readFail output = true) :
    mergeCore flt fs files0 output sF sB =
      rollback flt (fs.write output (flt.writeAs combined)) output .readBackFail false [] := by
  unfold mergeCore
  simp only [h, he, hs, hrb, Bool.false_eq_true, if_false, if_true]

theorem mergeCore_eq_sortBackFail {flt : Faults} {fs : FS} {files0 : List String}
    {output : String} {sF sB : DF → Option DF} {dfs : List DF} {combined : DF}
    (h : readAll flt fs (sortFiles files0) = some dfs) (he : dfs.isEmpty = false)
    (hs : sF (mergedTable dfs) = some combined) (hrb : flt.readFail output = false)
    (hsb : sB (flt.writeAs combined) = none) :
    mergeCore flt fs files0 output sF sB =
      rollback flt (fs.write output (flt.writeAs combined)) output .sortBackFail false [] := by
  unfold mergeCore
  simp only [h, he, hs, hrb, Bool.false_eq_true, if_false,
    FS.lookup_write_self, Option.getD_some, hsb]

theorem mergeCore_eq_verifyFail {flt : Faults} {fs : FS} {files0 : List String}
    {output : String} {sF sB : DF → Option DF} {dfs : List DF} {combined savedSorted : DF}
    (h : readAll flt fs (sortFiles files0) = some dfs) (he : dfs.isEmpty = false)
    (hs : sF (mergedTable dfs) = some combined) (hrb : flt.readFail output = false)
    (hsb : sB (flt.writeAs combined) = some savedSorted) (hne : combined ≠ savedSorted) :
    mergeCore flt fs files0 output sF sB =
      rollback flt (fs.write output (flt.writeAs combined)) output .verifyFail false [] := by
  unfold mergeCore
  simp only [h, he, hs, hrb, Bool.false_eq_true, if_false,
    FS.lookup_write_self, Option.getD_some, hsb, hne]

theorem mergeCore_eq_ok {flt : Faults} {fs : FS} {files0 : List String}
    {output : String} {sF sB : DF → Option DF} {dfs : List DF} {combined : DF}
    {fs2 : FS} {del : List String}
    (h : readAll flt fs (sortFiles files0) = some dfs) (he : dfs.isEmpty = false)
    (hs : sF (mergedTable dfs) = some combined) (hrb : flt.readFail output = false)
    (hsb : sB (flt.writeAs combined) = some combined)
    (hrm : removeAll flt (fs.write output (flt.writeAs combined)) (sortFiles files0)
      = (fs2, del, true)) :
    mergeCore flt fs files0 output sF sB = ⟨fs2, true, true, del, .ok⟩ := by
  unfold mergeCore
  simp only [h, he, hs, hrb, Bool.false_eq_true, if_false,
    FS.lookup_write_self, Option.getD_some, hsb, hrm]
  simp

theorem mergeCore_eq_cleanupFail {flt : Faults} {fs : FS} {files0 : List String}
    {output : String} {sF sB : DF → Option DF} {dfs : List DF} {combined : DF}
    {fs2 : FS} {del : List String}
    (h : readAll flt fs (sortFiles files0) = some dfs) (he : dfs.isEmpty = false)
    (hs : sF (mergedTable dfs) = some combined) (hrb : flt.readFail output = false)
    (hsb : sB (flt.writeAs combined) = some combined)
    (hrm : removeAll flt (fs.write output (flt.writeAs combined)) (sortFiles files0)
      = (fs2, del, false)) :
    mergeCore flt fs files0 output sF sB =
      rollback flt fs2 output .cleanupFail true del := by
  unfold mergeCore
  simp only [h, he, hs, hrb, Bool.false_eq_true, if_false,
    FS.lookup_write_self, Option.getD_some, hsb, hrm]
  simp

/-! ### Concrete example data for evaluated runs -/

/-- A row is recoverable when some file on disk contains it. -/
def recoverable (fs : FS) (r : Row) : Bool :=
  fs.any (fun e => e.2.rows.contains r)

/-- Example row with key (symbol 1, date 101). -/
def exRowA : Row := [some 1, some 101]

/-- Example row with key (symbol 2, date 102). -/
def exRowB : Row := [some 2, some 102]

/-- Daily shard path of January 1st. -/
def exPathA : String := "data/2020/2020-01-01.parquet"

/-- Daily shard path of January 2nd. -/
def exPathB : String := "data/2020/2020-01-02.parquet"

/-- A daily shard holding `exRowA`. -/
def exShardA : DF := ⟨["symbol", "date"], [exRowA]⟩

/-- A daily shard holding `exRowB`. -/
def exShardB : DF := ⟨["symbol", "date"], [exRowB]⟩

/-- The monthly target artifact of an earlier, interrupted but verified
run: it already holds both rows. -/
def exTargetAB : DF := ⟨["symbol", "date"], [exRowA, exRowB]⟩

/-- Disk state after an interrupted earlier job: the verified target
exists, shard A was already deleted, shard B was not yet deleted. -/
def exRerunFS : FS :=
  [(monthlyOutputPath "data" "2020-01", exTargetAB), (exPathB, exShardB)]

/-- Disk state before a fresh monthly job on two daily shards. -/
def exFreshFS : FS := [(exPathA, exShardA), (exPathB, exShardB)]

/-- Faults making `os.remove` fail on shard B only. -/
def exRemoveBFails : Faults :=
  ⟨fun _ => false, id, fun p => p == exPathB⟩

/-- C1: rerunning the monthly job after an interruption between
verify-success and full cleanup.  The target `2020/2020-01.parquet`
already holds rows A and B; only shard B is still on disk.  The rerun
merges the surviving shard alone, overwrites the target with it, reports
success — and row A, present before the rerun, is recoverable nowhere
afterwards.  This exhibits the violation of the claimed invariant at a
concrete input. -/
theorem C1_rerun_loses_records :
    (merge_and_validate noFaults exRerunFS "2020-01" [exPathB] "data"
        ["symbol", "date"]).ret = true
    ∧ recoverable exRerunFS exRowA = true
    ∧ recoverable (merge_and_validate noFaults exRerunFS "2020-01" [exPathB] "data"
        ["symbol", "date"]).fs exRowA = false := by
  decide

/-- C3: a deletion failure after verification passed.  Both shards merge
and verify; deleting shard A succeeds, deleting shard B raises.  The
exception lands in the same `except` handler as every other failure,
which deletes the just-verified candidate and returns `False` — the
claim says the candidate is kept and the job is still committed.  Row A
(only in the already-deleted shard A and the deleted candidate) is lost. -/
theorem C3_cleanup_failure_discards_candidate :
    (merge_and_validate exRemoveBFails exFreshFS "2020-01" [exPathA, exPathB] "data"
        ["symbol", "date"]).verified = true
    ∧ (merge_and_validate exRemoveBFails exFreshFS "2020-01" [exPathA, exPathB] "data"
        ["symbol", "date"]).ret = false
    ∧ (merge_and_validate exRemoveBFails exFreshFS "2020-01" [exPathA, exPathB] "data"
        ["symbol", "date"]).fs.pathExists (monthlyOutputPath "data" "2020-01") = false
    ∧ recoverable (merge_and_validate exRemoveBFails exFreshFS "2020-01" [exPathA, exPathB]
        "data" ["symbol", "date"]).fs exRowA = false := by
  decide

/-- Across every exit path: inputs are only ever deleted after the
verification comparison succeeded, and whenever verification did not
succeed every path other than the output path is untouched. -/
theorem mergeCore_commit_point (flt : Faults) (fs : FS) (files0 : List String)
    (output : String) (sF sB : DF → Option DF) :
    ((mergeCore flt fs files0 output sF sB).deletedInputs ≠ [] →
      (mergeCore flt fs files0 output sF sB).verified = true)
    ∧ ((mergeCore flt fs files0 output sF sB).verified = false →
      ∀ q, q ≠ output → (mergeCore flt fs files0 output sF sB).fs.lookup q = fs.lookup q) := by
  cases hra : readAll flt fs (sortFiles files0) with
  | none =>
      rw [mergeCore_eq_readFail hra]
      exact ⟨fun h => absurd rfl h, fun _ q _ => rfl⟩
  | some dfs =>
    cases he : dfs.isEmpty with
    | true =>
        rw [mergeCore_eq_empty hra he]
        exact ⟨fun h => absurd rfl h, fun _ q _ => rfl⟩
    | false =>
      cases hs : sF (mergedTable dfs) with
      | none =>
          rw [mergeCore_eq_sortFail hra he hs]
          exact ⟨fun h => absurd rfl h, fun _ q _ => rfl⟩
      | some combined =>
        cases hrb : flt.readFail output with
        | true =>
            rw [mergeCore_eq_readBackFail hra he hs hrb]
            refine ⟨fun h => absurd (rollback_fields _ _ _ _ _ _).2.2.1 h, fun _ q hq => ?_⟩
            rw [rollback_lookup _ _ _ _ _ _ q hq,
              FS.lookup_write_other fs output q _ hq]
        | false =>
          cases hsb : sB (flt.writeAs combined) with
          | none =>
              rw [mergeCore_eq_sortBackFail hra he hs hrb hsb]
              refine ⟨fun h => absurd (rollback_fields _ _ _ _ _ _).2.2.1 h, fun _ q hq => ?_⟩
              rw [rollback_lookup _ _ _ _ _ _ q hq,
                FS.lookup_write_other fs output q _ hq]
          | some savedSorted =>
            by_cases hv : combined = savedSorted
            · subst hv
              rcases hrm : removeAll flt (fs.write output (flt.writeAs combined))
                  (sortFiles files0) with ⟨fs2, del, ok⟩
              cases ok with
              | true =>
                  rw [mergeCore_eq_ok hra he hs hrb hsb hrm]
                  exact ⟨fun _ => rfl, fun h => absurd h (by simp)⟩
              | false =>
                  rw [mergeCore_eq_cleanupFail hra he hs hrb hsb hrm]
                  refine ⟨fun _ => (rollback_fields _ _ _ _ _ _).2.1, fun h => ?_⟩
                  rw [(rollback_fields _ _ _ _ _ _).2.1] at h
                  exact absurd h (by simp)
            · rw [mergeCore_eq_verifyFail hra he hs hrb hsb hv]
              refine ⟨fun h => absurd (rollback_fields _ _ _ _ _ _).2.2.1 h, fun _ q hq => ?_⟩
              rw [rollback_lookup _ _ _ _ _ _ q hq,
                FS.lookup_write_other fs output q _ hq]

/-- On the verification-failure exit, the candidate is removed and every
path other than the output path is untouched. -/
theorem mergeCore_verifyFail_rollback (flt : Faults) (fs : FS) (files0 : List String)
    (output : String) (sF sB : DF → Option DF)
    (hrm : flt.removeFail output = false)
    (hexit : (mergeCore flt fs files0 output sF sB).exit = MergeExit.verifyFail) :
    (mergeCore flt fs files0 output sF sB).fs.pathExists output = false
    ∧ ∀ q, q ≠ output → (mergeCore flt fs files0 output sF sB).fs.lookup q = fs.lookup q := by
  cases hra : readAll flt fs (sortFiles files0) with
  | none => rw [mergeCore_eq_readFail hra] at hexit ⊢; exact absurd hexit (by simp)
  | some dfs =>
    cases he : dfs.isEmpty with
    | true => rw [mergeCore_eq_empty hra he] at hexit ⊢; exact absurd hexit (by simp)
    | false =>
      cases hs : sF (mergedTable dfs) with
      | none => rw [mergeCore_eq_sortFail hra he hs] at hexit ⊢; exact absurd hexit (by simp)
      | some combined =>
        cases hrb : flt.readFail output with
        | true =>
            rw [mergeCore_eq_readBackFail hra he hs hrb] at hexit ⊢
            rw [(rollback_fields _ _ _ _ _ _).2.2.2] at hexit
            exact absurd hexit (by simp)
        | false =>
          cases hsb : sB (flt.writeAs combined) with
          | none =>
              rw [mergeCore_eq_sortBackFail hra he hs hrb hsb] at hexit ⊢
              rw [(rollback_fields _ _ _ _ _ _).2.2.2] at hexit
              exact absurd hexit (by simp)
          | some savedSorted =>
            by_cases hv : combined = savedSorted
            · subst hv
              rcases hrm2 : removeAll flt (fs.write output (flt.writeAs combined))
                  (sortFiles files0) with ⟨fs2, del, ok⟩
              cases ok with
              | true =>
                  rw [mergeCore_eq_ok hra he hs hrb hsb hrm2] at hexit ⊢
                  exact absurd hexit (by simp)
              | false =>
                  rw [mergeCore_eq_cleanupFail hra he hs hrb hsb hrm2] at hexit ⊢
                  rw [(rollback_fields _ _ _ _ _ _).2.2.2] at hexit
                  exact absurd hexit (by simp)
            · rw [mergeCore_eq_verifyFail hra he hs hrb hsb hv] at hexit ⊢
              constructor
              · exact rollback_gone flt _ output _ false []
                  (FS.pathExists_write_self fs output _) hrm
              · intro q hq
                rw [rollback_lookup _ _ _ _ _ _ q hq,
                  FS.lookup_write_other fs output q _ hq]

/-- C5: in every execution of either merge function, inputs are deleted
only after the `assert_frame_equal` verification succeeded (the ghost
`verified` flag is set exactly there), and when verification did not
succeed every path other than the candidate's is untouched — input
deletion is the sole commit point. -/
theorem C5_deletion_only_after_verification (flt : Faults) (fs : FS) (k : String)
    (files : List String) (tgt : String) (sc : List String) :
    (((merge_and_validate flt fs k files tgt sc).deletedInputs ≠ [] →
        (merge_and_validate flt fs k files tgt sc).verified = true)
      ∧ ((merge_and_validate flt fs k files tgt sc).verified = false →
        ∀ q, q ≠ monthlyOutputPath tgt k →
          (merge_and_validate flt fs k files tgt sc).fs.lookup q = fs.lookup q))
    ∧ (((merge_yearly_and_validate flt fs k files tgt sc).deletedInputs ≠ [] →
        (merge_yearly_and_validate flt fs k files tgt sc).verified = true)
      ∧ ((merge_yearly_and_validate flt fs k files tgt sc).verified = false →
        ∀ q, q ≠ yearlyOutputPath tgt k →
          (merge_yearly_and_validate flt fs k files tgt sc).fs.lookup q = fs.lookup q)) :=
  ⟨mergeCore_commit_point flt fs files (monthlyOutputPath tgt k) _ _,
   mergeCore_commit_point flt fs files (yearlyOutputPath tgt k) _ _⟩

/-- Witness for C5: a successful monthly run (inputs deleted, verified
set) and a failed run on a missing shard (not verified, the shard paths
untouched). -/
theorem C5_deletion_only_after_verification_witness :
    (merge_and_validate noFaults exFreshFS "2020-01" [exPathA, exPathB] "data"
      ["symbol", "date"]).verified = true
    ∧ (merge_and_validate noFaults [] "2020-01" [exPathA] "data"
      ["symbol", "date"]).fs.lookup exPathA = FS.lookup [] exPathA :=
  ⟨(C5_deletion_only_after_verification noFaults exFreshFS "2020-01" [exPathA, exPathB]
      "data" ["symbol", "date"]).1.1 (by decide),
   (C5_deletion_only_after_verification noFaults [] "2020-01" [exPathA]
      "data" ["symbol", "date"]).1.2 (by decide) exPathA (by decide)⟩

/-- C4: when the verification comparison fails (the `verifyFail` exit),
the job ends with the candidate artifact absent and every original
input shard present with unmodified content, for both tiers.  The two
side conditions are facts of every real job: the orchestrators never
list the coarser target among the inputs, and the rollback deletion is
assumed not to fail itself. -/
theorem C4_verify_failure_rolls_back (flt : Faults) (fs : FS) (k : String)
    (files : List String) (tgt : String) (sc : List String)
    (hrm1 : flt.removeFail (monthlyOutputPath tgt k) = false)
    (hrm2 : flt.removeFail (yearlyOutputPath tgt k) = false)
    (hni1 : monthlyOutputPath tgt k ∉ files)
    (hni2 : yearlyOutputPath tgt k ∉ files) :
    ((merge_and_validate flt fs k files tgt sc).exit = MergeExit.verifyFail →
      (merge_and_validate flt fs k files tgt sc).fs.pathExists (monthlyOutputPath tgt k) = false
      ∧ ∀ f ∈ files, (merge_and_validate flt fs k files tgt sc).fs.lookup f = fs.lookup f)
    ∧ ((merge_yearly_and_validate flt fs k files tgt sc).exit = MergeExit.verifyFail →
      (merge_yearly_and_validate flt fs k files tgt sc).fs.pathExists (yearlyOutputPath tgt k) = false
      ∧ ∀ f ∈ files, (merge_yearly_and_validate flt fs k files tgt sc).fs.lookup f = fs.lookup f) := by
  constructor
  · intro hexit
    have h := mergeCore_verifyFail_rollback flt fs files (monthlyOutputPath tgt k) _ _ hrm1 hexit
    exact ⟨h.1, fun f hf => h.2 f (fun hq => hni1 (hq ▸ hf))⟩
  · intro hexit
    have h := mergeCore_verifyFail_rollback flt fs files (yearlyOutputPath tgt k) _ _ hrm2 hexit
    exact ⟨h.1, fun f hf => h.2 f (fun hq => hni2 (hq ▸ hf))⟩

/-- Faults simulating a truncated candidate write: the frame on disk
loses all its rows. -/
def truncatingWrite : Faults :=
  ⟨fun _ => false, fun df => ⟨df.cols, []⟩, fun _ => false⟩

/-- Witness for C4: a monthly run with a truncated candidate write hits
the `verifyFail` exit; the theorem yields that the candidate is gone and
both daily shards are untouched. -/
theorem C4_verify_failure_rolls_back_witness :
    (merge_and_validate truncatingWrite exFreshFS "2020-01" [exPathA, exPathB] "data"
      ["symbol", "date"]).fs.pathExists (monthlyOutputPath "data" "2020-01") = false
    ∧ ∀ f ∈ [exPathA, exPathB],
      (merge_and_validate truncatingWrite exFreshFS "2020-01" [exPathA, exPathB] "data"
        ["symbol", "date"]).fs.lookup f = exFreshFS.lookup f :=
  (C4_verify_failure_rolls_back truncatingWrite exFreshFS "2020-01" [exPathA, exPathB]
      "data" ["symbol", "date"] (by decide) (by decide) (by decide) (by decide)).1
    (by decide)

/-- Sorting the file list is permutation-invariant: `sorted(files)`
canonicalizes the load order. -/
theorem sortFiles_perm_eq {files1 files2 : List String} (h : files1.Perm files2) :
    sortFiles files1 = sortFiles files2 := by
  haveI := fileLE_total
  haveI := fileLE_trans
  haveI := fileLE_antisymm
  exact List.eq_of_perm_of_sorted
    ((List.perm_insertionSort fileLE files1).trans
      (h.trans (List.perm_insertionSort fileLE files2).symm))
    (List.sorted_insertionSort fileLE files1)
    (List.sorted_insertionSort fileLE files2)

/-- A mergeCore run depends on the input file list only through its
sorted form. -/
theorem mergeCore_perm (flt : Faults) (fs : FS) {files1 files2 : List String}
    (output : String) (sF sB : DF → Option DF) (h : files1.Perm files2) :
    mergeCore flt fs files1 output sF sB = mergeCore flt fs files2 output sF sB := by
  unfold mergeCore
  rw [sortFiles_perm_eq h]

/-- C10: permuting the input shard list changes nothing — final
filesystem, return value and all ghost fields coincide — because the
file list is sorted before any file is read. -/
theorem C10_input_order_irrelevant (flt : Faults) (fs : FS) (k : String)
    {files1 files2 : List String} (tgt : String) (sc : List String)
    (h : files1.Perm files2) :
    merge_and_validate flt fs k files1 tgt sc = merge_and_validate flt fs k files2 tgt sc
    ∧ merge_yearly_and_validate flt fs k files1 tgt sc
      = merge_yearly_and_validate flt fs k files2 tgt sc :=
  ⟨mergeCore_perm flt fs (monthlyOutputPath tgt k) _ _ h,
   mergeCore_perm flt fs (yearlyOutputPath tgt k) _ _ h⟩

/-- Witness for C10 at a concrete transposition of two shard paths. -/
theorem C10_input_order_irrelevant_witness :
    merge_and_validate noFaults exFreshFS "2020-01" [exPathB, exPathA] "data"
        ["symbol", "date"]
      = merge_and_validate noFaults exFreshFS "2020-01" [exPathA, exPathB] "data"
        ["symbol", "date"]
    ∧ merge_yearly_and_validate noFaults exFreshFS "2020-01" [exPathB, exPathA] "data"
        ["symbol", "date"]
      = merge_yearly_and_validate noFaults exFreshFS "2020-01" [exPathA, exPathB] "data"
        ["symbol", "date"] :=
  C10_input_order_irrelevant noFaults exFreshFS "2020-01" "data" ["symbol", "date"]
    (List.Perm.swap exPathA exPathB [])

/-- C9: `is_past_year` is true exactly when the string parses as an
integer strictly below the injected current year; unparseable input
yields `False` (never an exception: the model is a total function). -/
theorem C9_yearly_gate (todayYear : Int) (s : String) :
    (is_past_year todayYear s = true ↔ ∃ y, pyInt s = some y ∧ y < todayYear)
    ∧ (pyInt s = none → is_past_year todayYear s = false) := by
  unfold is_past_year
  cases hp : pyInt s with
  | none => simp
  | some y => simp

/-- Witness for C9: year 2020 is past in 2026, `"20x0"` is unparseable
and rejected. -/
theorem C9_yearly_gate_witness :
    is_past_year 2026 "2020" = true ∧ is_past_year 2026 "20x0" = false :=
  ⟨(C9_yearly_gate 2026 "2020").1.mpr ⟨2020, by decide, by decide⟩,
   (C9_yearly_gate 2026 "20x0").2 (by decide)⟩

/-- C6 counterexample: a monthly job whose single shard has only column
`"a"` while the SortKey is `["symbol", "date"]`.  The claim says the
sort is skipped and the merge completes; the monthly code instead sorts
unconditionally, the missing column raises `KeyError`, and the job fails
with nothing written. -/
theorem C6_monthly_missing_sortkey_fails :
    (merge_and_validate noFaults [(exPathA, ⟨["a"], [[some 5]]⟩)] "2020-01" [exPathA]
        "data" ["symbol", "date"]).ret = false
    ∧ (merge_and_validate noFaults [(exPathA, ⟨["a"], [[some 5]]⟩)] "2020-01" [exPathA]
        "data" ["symbol", "date"]).exit = MergeExit.sortFail
    ∧ (merge_and_validate noFaults [(exPathA, ⟨["a"], [[some 5]]⟩)] "2020-01" [exPathA]
        "data" ["symbol", "date"]).fs.pathExists (monthlyOutputPath "data" "2020-01")
      = false := by
  decide

/-- C7 counterexample: with the year directory enumerated in the order
`2020-01-05.parquet`, `2020-01-03.parquet`, `get_monthly_groups` returns
the `2020-01` group in exactly that order — the later path precedes the
lexicographically smaller one, so the returned list is not
lexicographically sorted (the catalog never sorts; `pathlib.glob`
enumerates in filesystem order). -/
theorem C7_groups_not_sorted :
    lookupGroup
        (get_monthly_groups
          [("data/2020/2020-01-05.parquet", exShardA),
           ("data/2020/2020-01-03.parquet", exShardB)] "data" "2020") "2020-01"
      = ["data/2020/2020-01-05.parquet", "data/2020/2020-01-03.parquet"]
    ∧ pathLE "data/2020/2020-01-05.parquet".data "data/2020/2020-01-03.parquet".data
      = false := by
  decide

/-- First day of the month after (y, m), as the code computes it. -/
def nextMonthStartRD (y m : Int) : Int :=
  if m = 12 then rataDie (y + 1) 1 1 else rataDie y (m + 1) 1

theorem dateValid_day1 (y m : Int) (h1 : 1 ≤ y) (h2 : y ≤ 9999)
    (h3 : 1 ≤ m) (h4 : m ≤ 12) : dateValid y m 1 = true := by
  simp only [dateValid, daysInMonth, Bool.and_eq_true, decide_eq_true_eq]
  refine ⟨⟨⟨⟨⟨h1, h2⟩, h3⟩, h4⟩, by omega⟩, ?_⟩
  split_ifs <;> omega

/-- The Bool `is_safe_to_merge` unfolds, on a well-formed month, to the
comparison of today's ordinal with the next month start plus the wait. -/
theorem is_safe_to_merge_iff (today N y m : Int) (s : String)
    (hp : parseMonthStr s = some (y, m))
    (hm1 : 1 ≤ m) (hm2 : m ≤ 12) (hy1 : 1 ≤ y) (hy2 : y ≤ 9998) :
    (is_safe_to_merge today s N = true ↔ today ≥ nextMonthStartRD y m + N) := by
  simp only [is_safe_to_merge, hp]
  by_cases h12 : m = 12
  · rw [if_pos h12,
      if_pos (dateValid_day1 (y + 1) 1 (by omega) (by omega) (by omega) (by omega)),
      nextMonthStartRD, if_pos h12]
    simp
  · rw [if_neg h12,
      if_pos (dateValid_day1 y (m + 1) (by omega) (by omega) (by omega) (by omega)),
      nextMonthStartRD, if_neg h12]
    simp

/-- A month starts no later than the next month's first day. -/
theorem monthStart_le_next (y m : Int) (hm1 : 1 ≤ m) (hm2 : m ≤ 12) (hy : 1 ≤ y) :
    rataDie y m 1 ≤ nextMonthStartRD y m := by
  unfold nextMonthStartRD
  by_cases h12 : m = 12
  · subst h12
    rw [if_pos rfl]
    simp only [rataDie, daysBeforeMonth, isLeap]
    norm_num
    split_ifs <;> omega
  · rw [if_neg h12]
    have hm2' : m ≤ 11 := by omega
    interval_cases m <;>
      simp only [rataDie, daysBeforeMonth, isLeap] <;>
      norm_num <;>
      split_ifs <;>
      omega

/-- C8: for a well-formed month string, `is_safe_to_merge` is true
exactly when today's date reaches the first day of the following month
plus the wait (any `N`); with the default wait of 5 it is false
throughout the month itself and for any month lying in the future,
hence true precisely from 5 days past month-end on. -/
theorem C8_monthly_gate (today y m : Int) (s : String)
    (hp : parseMonthStr s = some (y, m))
    (hm1 : 1 ≤ m) (hm2 : m ≤ 12) (hy1 : 1 ≤ y) (hy2 : y ≤ 9998) :
    (∀ N, is_safe_to_merge today s N = true ↔ today ≥ nextMonthStartRD y m + N)
    ∧ ((rataDie y m 1 ≤ today ∧ today < nextMonthStartRD y m) →
        is_safe_to_merge today s 5 = false)
    ∧ (∀ y2 m2 s2, parseMonthStr s2 = some (y2, m2) → 1 ≤ m2 → m2 ≤ 12 →
        1 ≤ y2 → y2 ≤ 9998 → today < rataDie y2 m2 1 →
        is_safe_to_merge today s2 5 = false) := by
  refine ⟨fun N => is_safe_to_merge_iff today N y m s hp hm1 hm2 hy1 hy2, ?_, ?_⟩
  · rintro ⟨_, h2⟩
    rw [← Bool.not_eq_true]
    intro h
    have := (is_safe_to_merge_iff today 5 y m s hp hm1 hm2 hy1 hy2).mp h
    omega
  · intro y2 m2 s2 hp2 a b c d hfut
    have hle := monthStart_le_next y2 m2 a b c
    rw [← Bool.not_eq_true]
    intro h
    have := (is_safe_to_merge_iff today 5 y2 m2 s2 hp2 a b c d).mp h
    omega

/-- Witness for C8: January 2023 becomes safe exactly on 2023-02-06 and
is unsafe while January is still running. -/
theorem C8_monthly_gate_witness :
    is_safe_to_merge (rataDie 2023 2 6) "2023-01" 5 = true
    ∧ is_safe_to_merge (rataDie 2023 1 15) "2023-01" 5 = false :=
  ⟨((C8_monthly_gate (rataDie 2023 2 6) 2023 1 "2023-01" (by decide)
      (by decide) (by decide) (by decide) (by decide)).1 5).mpr (by decide),
   (C8_monthly_gate (rataDie 2023 1 15) 2023 1 "2023-01" (by decide)
      (by decide) (by decide) (by decide) (by decide)).2.1 ⟨by decide, by decide⟩⟩

/-! ### Uniform-schema lemmas and the success path -/

theorem FS.pathExists_iff_lookup (fs : FS) (p : String) :
    fs.pathExists p = true ↔ ∃ df, fs.lookup p = some df := by
  induction fs with
  | nil => simp [FS.pathExists, FS.lookup]
  | cons e rest ih =>
      by_cases he : e.1 = p <;> simp [FS.pathExists, FS.lookup, he, ih]

theorem readAll_noFaults (fs : FS) :
    ∀ l : List String, (∀ f ∈ l, ∃ df, fs.lookup f = some df) →
      readAll noFaults fs l = some (l.map (fun f => (fs.lookup f).getD ⟨[], []⟩))
  | [], _ => rfl
  | f :: rest, h => by
    obtain ⟨df, hdf⟩ := h f (List.mem_cons_self f rest)
    have ih := readAll_noFaults fs rest (fun g hg => h g (List.mem_cons_of_mem f hg))
    simp only [noFaults] at ih
    simp [readAll, noFaults, hdf, ih]

theorem filter_not_contained_nil (C : List String) :
    C.filter (fun c => ¬ C.contains c) = [] := by
  apply List.filter_eq_nil_iff.mpr
  intro a ha
  simp [ha]

theorem foldl_unionStep_const (C : List String) :
    ∀ dfs : List DF, (∀ df ∈ dfs, df.cols = C) →
      dfs.foldl (fun acc df => acc ++ df.cols.filter (fun c => ¬ acc.contains c)) C = C
  | [], _ => rfl
  | df :: rest, h => by
    have hc : df.cols = C := h df (List.mem_cons_self df rest)
    have step : C ++ df.cols.filter (fun c => ¬ C.contains c) = C := by
      rw [hc, filter_not_contained_nil, List.append_nil]
    simp only [List.foldl_cons, step]
    exact foldl_unionStep_const C rest (fun d hd => h d (List.mem_cons_of_mem df hd))

theorem unionCols_const (C : List String) (dfs : List DF) (hne : dfs ≠ [])
    (hcols : ∀ df ∈ dfs, df.cols = C) : unionCols dfs = C := by
  match dfs, hne with
  | d0 :: rest, _ =>
    have h0 : d0.cols = C := hcols d0 (List.mem_cons_self d0 rest)
    have step : ([] : List String) ++ d0.cols.filter (fun c => ¬ ([] : List String).contains c)
        = C := by
      rw [h0]
      simp
    unfold unionCols
    simp only [List.foldl_cons, step]
    exact foldl_unionStep_const C rest (fun d hd => hcols d (List.mem_cons_of_mem d0 hd))

theorem reindex_aux :
    ∀ (C : List String) (r : Row), C.Nodup → r.length = C.length →
      (C.map (fun c =>
        match colIdx C c with
        | some i => r.getD i none
        | none => none)) = r
  | [], r, _, hr => by
    cases r with
    | nil => rfl
    | cons x r2 => simp at hr
  | c :: C2, r, hnd, hr => by
    cases r with
    | nil => simp at hr
    | cons x r2 =>
      have hcnotin : c ∉ C2 := (List.nodup_cons.mp hnd).1
      have hnd2 : C2.Nodup := (List.nodup_cons.mp hnd).2
      have hr2 : r2.length = C2.length := by simpa using hr
      have htail : (C2.map (fun c2 =>
          match colIdx (c :: C2) c2 with
          | some i => (x :: r2).getD i none
          | none => none)) = r2 := by
        have hcongr : ∀ c2 ∈ C2,
            (match colIdx (c :: C2) c2 with
             | some i => (x :: r2).getD i none
             | none => none)
            = (match colIdx C2 c2 with
               | some i => r2.getD i none
               | none => none) := by
          intro c2 hc2
          have hne : ¬ c = c2 := fun hh => hcnotin (hh ▸ hc2)
          simp only [colIdx, if_neg hne]
          cases hidx : colIdx C2 c2 with
          | none => rfl
          | some i => rfl
        rw [List.map_congr_left hcongr, reindex_aux C2 r2 hnd2 hr2]
      simp only [List.map_cons, htail]
      have hhead : (match colIdx (c :: C2) c with
          | some i => (x :: r2).getD i none
          | none => none) = x := by simp [colIdx]
      rw [hhead]

/-- Reindexing a well-formed row onto its own column list is the
identity. -/
theorem reindexRow_self (C : List String) (hnd : C.Nodup) (r : Row)
    (hr : r.length = C.length) : reindexRow C C r = r :=
  reindex_aux C r hnd hr

theorem flatMap_reindex_self (C : List String) (hnd : C.Nodup) :
    ∀ dfs : List DF, (∀ df ∈ dfs, df.cols = C) →
      (∀ df ∈ dfs, ∀ r ∈ df.rows, r.length = C.length) →
      dfs.flatMap (fun df => df.rows.map (reindexRow df.cols C))
        = dfs.flatMap (fun df => df.rows)
  | [], _, _ => rfl
  | df :: rest, hcols, hlen => by
    have hc : df.cols = C := hcols df (List.mem_cons_self df rest)
    have hrows : df.rows.map (reindexRow df.cols C) = df.rows := by
      rw [hc]
      have : ∀ r ∈ df.rows, reindexRow C C r = r := fun r hr =>
        reindexRow_self C hnd r (hlen df (List.mem_cons_self df rest) r hr)
      calc df.rows.map (reindexRow C C) = df.rows.map id := List.map_congr_left this
        _ = df.rows := List.map_id df.rows
    simp only [List.flatMap_cons, hrows]
    rw [flatMap_reindex_self C hnd rest
      (fun d hd => hcols d (List.mem_cons_of_mem df hd))
      (fun d hd => hlen d (List.mem_cons_of_mem df hd))]

/-- `pd.concat` over frames of one common schema keeps the schema and
concatenates the rows. -/
theorem concatDFs_uniform (C : List String) (hnd : C.Nodup) (dfs : List DF)
    (hne : dfs ≠ []) (hcols : ∀ df ∈ dfs, df.cols = C)
    (hlen : ∀ df ∈ dfs, ∀ r ∈ df.rows, r.length = C.length) :
    concatDFs dfs = ⟨C, dfs.flatMap (fun df => df.rows)⟩ := by
  unfold concatDFs
  rw [unionCols_const C dfs hne hcols]
  show DF.mk C (dfs.flatMap fun df => df.rows.map (reindexRow df.cols C)) = _
  rw [flatMap_reindex_self C hnd dfs hcols hlen]

theorem mergedTable_uniform (C : List String) (hnd : C.Nodup) (dfs : List DF)
    (hne : dfs ≠ []) (hcols : ∀ df ∈ dfs, df.cols = C)
    (hlen : ∀ df ∈ dfs, ∀ r ∈ df.rows, r.length = C.length) :
    mergedTable dfs = ⟨C, dropDup (dfs.flatMap (fun df => df.rows))⟩ := by
  unfold mergedTable
  rw [concatDFs_uniform C hnd dfs hne hcols hlen]

theorem sortStepMonthly_present (sc : List String) (df : DF) (hne : sc ≠ [])
    (hsub : ∀ c ∈ sc, c ∈ df.cols) :
    sortStepMonthly sc df = some (sortValues sc df) := by
  unfold sortStepMonthly
  rw [if_neg (by simp [List.isEmpty_iff, hne]), if_pos]
  apply List.all_eq_true.mpr
  intro c hc
  simpa using hsub c hc

theorem sortStepMonthly_missing (sc : List String) (df : DF)
    (hmiss : ∃ c ∈ sc, ¬ c ∈ df.cols) :
    sortStepMonthly sc df = none := by
  obtain ⟨c, hc, hnotin⟩ := hmiss
  unfold sortStepMonthly
  have hne : ¬ sc.isEmpty = true := by
    simp only [List.isEmpty_iff]
    intro h
    rw [h] at hc
    exact absurd hc (List.not_mem_nil c)
  rw [if_neg hne, if_neg]
  intro hall
  have := List.all_eq_true.mp hall c hc
  simp at this
  exact hnotin this

theorem sortStepYearly_present (sc : List String) (df : DF) (hne : sc ≠ [])
    (hsub : ∀ c ∈ sc, c ∈ df.cols) :
    sortStepYearly sc df = sortValues sc df := by
  unfold sortStepYearly
  rw [if_neg (by simp [List.isEmpty_iff, hne])]
  have hfilter : sc.filter (fun c => df.cols.contains c) = sc :=
    List.filter_eq_self.mpr (fun c hc => by simpa using hsub c hc)
  simp only [hfilter]
  rw [if_neg (by simp [List.isEmpty_iff, hne])]

theorem sortBackYearly_present (sc : List String) (df : DF) (hne : sc ≠ [])
    (hsub : ∀ c ∈ sc, c ∈ df.cols) :
    sortBackYearly sc df = sortValues sc df := by
  unfold sortBackYearly
  rw [if_neg (by simp [List.isEmpty_iff, hne])]
  have hfilter : sc.filter (fun c => df.cols.contains c) = sc :=
    List.filter_eq_self.mpr (fun c hc => by simpa using hsub c hc)
  simp only [hfilter]

theorem sortStepYearly_allMissing (sc : List String) (df : DF)
    (hmiss : ∀ c ∈ sc, ¬ c ∈ df.cols) :
    sortStepYearly sc df = df := by
  unfold sortStepYearly
  by_cases hsc : sc.isEmpty
  · rw [if_pos hsc]
  · rw [if_neg hsc]
    have hfilter : sc.filter (fun c => df.cols.contains c) = [] := by
      apply List.filter_eq_nil_iff.mpr
      intro c hc
      simpa using hmiss c hc
    simp only [hfilter]
    simp

theorem sortBackYearly_allMissing (sc : List String) (df : DF)
    (hmiss : ∀ c ∈ sc, ¬ c ∈ df.cols) :
    sortBackYearly sc df = df := by
  unfold sortBackYearly
  by_cases hsc : sc.isEmpty
  · rw [if_pos hsc]
  · rw [if_neg hsc]
    have hfilter : sc.filter (fun c => df.cols.contains c) = [] := by
      apply List.filter_eq_nil_iff.mpr
      intro c hc
      simpa using hmiss c hc
    rw [hfilter]
    exact sortValues_nilKey df

/-- Re-sorting an already sorted frame changes nothing (the sort is a
stable sort, so it is the identity on sorted input). -/
theorem sortValues_idem (keyCols : List String) (df : DF) :
    sortValues keyCols (sortValues keyCols df) = sortValues keyCols df := by
  haveI := rowLE_total df.cols keyCols
  haveI := rowLE_trans df.cols keyCols
  unfold sortValues
  exact congrArg (DF.mk df.cols)
    ((List.sorted_insertionSort (rowLE df.cols keyCols) df.rows).insertionSort_eq)

/-- The rows written by a sort step are sorted by the key. -/
theorem sortValues_sorted (keyCols : List String) (df : DF) :
    List.Sorted (rowLE df.cols keyCols) (sortValues keyCols df).rows := by
  haveI := rowLE_total df.cols keyCols
  haveI := rowLE_trans df.cols keyCols
  exact List.sorted_insertionSort (rowLE df.cols keyCols) df.rows

/-- The fault-free success run of the merge protocol: all shards
present, the sort step succeeds, and re-sorting the faithfully written
candidate reproduces it.  The run commits: it returns `True`, deletes
exactly the (sorted) input shards, and leaves the candidate on disk. -/
theorem mergeCore_success (fs : FS) (S : List String) (output : String)
    (sF sB : DF → Option DF) (combined : DF)
    (hnd : S.Nodup) (hne : S ≠ [])
    (hpres : ∀ f ∈ S, ∃ df, fs.lookup f = some df)
    (hout : output ∉ S)
    (hsF : sF (mergedTable ((sortFiles S).map (fun f => (fs.lookup f).getD ⟨[], []⟩)))
      = some combined)
    (hsB : sB combined = some combined) :
    mergeCore noFaults fs S output sF sB
      = ⟨remFold (fs.write output combined) (sortFiles S), true, true, sortFiles S, .ok⟩
    ∧ (mergeCore noFaults fs S output sF sB).fs.lookup output = some combined := by
  have hperm : (sortFiles S).Perm S := List.perm_insertionSort fileLE S
  have hmem : ∀ f, f ∈ sortFiles S ↔ f ∈ S := fun f => hperm.mem_iff
  have hpres2 : ∀ f ∈ sortFiles S, ∃ df, fs.lookup f = some df :=
    fun f hf => hpres f ((hmem f).mp hf)
  have hra : readAll noFaults fs (sortFiles S)
      = some ((sortFiles S).map (fun f => (fs.lookup f).getD ⟨[], []⟩)) :=
    readAll_noFaults fs _ hpres2
  have hsne : sortFiles S ≠ [] := by
    intro h
    exact hne ((h ▸ hperm.symm : S.Perm []).eq_nil)
  have he : ((sortFiles S).map (fun f => (fs.lookup f).getD ⟨[], []⟩)).isEmpty = false := by
    cases h : sortFiles S with
    | nil => exact absurd h hsne
    | cons f rest => rfl
  have houts : output ∉ sortFiles S := fun h => hout ((hmem output).mp h)
  have hnd2 : (sortFiles S).Nodup := hperm.nodup_iff.mpr hnd
  have hrm : removeAll noFaults (fs.write output (noFaults.writeAs combined)) (sortFiles S)
      = (remFold (fs.write output (noFaults.writeAs combined)) (sortFiles S),
          sortFiles S, true) := by
    apply removeAll_complete noFaults (sortFiles S) _ hnd2 (fun f _ => rfl)
    intro f hf
    obtain ⟨df, hdf⟩ := hpres2 f hf
    apply (FS.pathExists_iff_lookup _ f).mpr
    refine ⟨df, ?_⟩
    rw [FS.lookup_write_other fs output f _ (fun hfo => houts (hfo ▸ hf))]
    exact hdf
  have heq : mergeCore noFaults fs S output sF sB
      = ⟨remFold (fs.write output (noFaults.writeAs combined)) (sortFiles S),
          true, true, sortFiles S, .ok⟩ :=
    mergeCore_eq_ok hra he hsF rfl hsB hrm
  constructor
  · exact heq
  · rw [heq]
    show (remFold (fs.write output (noFaults.writeAs combined)) (sortFiles S)).lookup output
      = some combined
    rw [lookup_remFold_not_mem (sortFiles S) _ output houts]
    exact FS.lookup_write_self fs output combined

/-- Rows of the parquet file at `f` as the merge reads them. -/
def readRows (fs : FS) (f : String) : List Row :=
  ((fs.lookup f).getD ⟨[], []⟩).rows

/-- C2: on a non-empty shard list of one common schema containing the
SortKey, both merge functions succeed, and the candidate artifact W
satisfies the lossless round-trip: re-sorting the read-back artifact
returns it unchanged, its rows are literally the SortKey-sort of the
deduplicated concatenation of the shards' rows (in canonical sorted
file order), and as a multiset they equal the deduplicated
concatenation of the rows read from each shard of S in given order. -/
theorem C2_lossless_roundtrip (fs : FS) (S : List String) (k tgt : String)
    (sc C : List String)
    (hne : S ≠ []) (hnd : S.Nodup) (hCnd : C.Nodup)
    (hscne : sc ≠ []) (hsub : ∀ c ∈ sc, c ∈ C)
    (hpres : ∀ f ∈ S, ∃ df, fs.lookup f = some df ∧ df.cols = C ∧
      ∀ r ∈ df.rows, r.length = C.length)
    (hout1 : monthlyOutputPath tgt k ∉ S) (hout2 : yearlyOutputPath tgt k ∉ S) :
    ((merge_and_validate noFaults fs k S tgt sc).ret = true
      ∧ ∃ W, (merge_and_validate noFaults fs k S tgt sc).fs.lookup
            (monthlyOutputPath tgt k) = some W
          ∧ sortValues sc W = W
          ∧ W.rows = (sortValues sc
              ⟨C, dropDup ((sortFiles S).flatMap (readRows fs))⟩).rows
          ∧ W.rows.Perm (dropDup (S.flatMap (readRows fs))))
    ∧ ((merge_yearly_and_validate noFaults fs k S tgt sc).ret = true
      ∧ ∃ W, (merge_yearly_and_validate noFaults fs k S tgt sc).fs.lookup
            (yearlyOutputPath tgt k) = some W
          ∧ sortValues sc W = W
          ∧ W.rows = (sortValues sc
              ⟨C, dropDup ((sortFiles S).flatMap (readRows fs))⟩).rows
          ∧ W.rows.Perm (dropDup (S.flatMap (readRows fs)))) := by
  have hperm : (sortFiles S).Perm S := List.perm_insertionSort fileLE S
  have hpres1 : ∀ f ∈ S, ∃ df, fs.lookup f = some df :=
    fun f hf => ⟨(hpres f hf).choose, (hpres f hf).choose_spec.1⟩
  have hlook : ∀ f ∈ sortFiles S, ((fs.lookup f).getD ⟨[], []⟩).cols = C
      ∧ ∀ r ∈ ((fs.lookup f).getD ⟨[], []⟩).rows, r.length = C.length := by
    intro f hf
    obtain ⟨df, hdf, hcols, hlen⟩ := hpres f (hperm.mem_iff.mp hf)
    rw [hdf]
    exact ⟨hcols, hlen⟩
  have hsne : sortFiles S ≠ [] := by
    intro h
    exact hne ((h ▸ hperm.symm : S.Perm []).eq_nil)
  have hdfs_ne : (sortFiles S).map (fun f => (fs.lookup f).getD ⟨[], []⟩) ≠ [] := by
    simp [List.map_eq_nil_iff, hsne]
  have hdfs_cols : ∀ df ∈ (sortFiles S).map (fun f => (fs.lookup f).getD ⟨[], []⟩),
      df.cols = C := by
    intro df hdf
    obtain ⟨f, hf, rfl⟩ := List.mem_map.mp hdf
    exact (hlook f hf).1
  have hdfs_len : ∀ df ∈ (sortFiles S).map (fun f => (fs.lookup f).getD ⟨[], []⟩),
      ∀ r ∈ df.rows, r.length = C.length := by
    intro df hdf
    obtain ⟨f, hf, rfl⟩ := List.mem_map.mp hdf
    exact (hlook f hf).2
  have hmt : mergedTable ((sortFiles S).map (fun f => (fs.lookup f).getD ⟨[], []⟩))
      = ⟨C, dropDup ((sortFiles S).flatMap (readRows fs))⟩ := by
    rw [mergedTable_uniform C hCnd _ hdfs_ne hdfs_cols hdfs_len]
    simp only [List.flatMap_map]
    rfl
  have hcolsW : (sortValues sc ⟨C, dropDup ((sortFiles S).flatMap (readRows fs))⟩).cols
      = C := rfl
  have hWperm : (sortValues sc
      ⟨C, dropDup ((sortFiles S).flatMap (readRows fs))⟩).rows.Perm
      (dropDup (S.flatMap (readRows fs))) := by
    refine (List.perm_insertionSort _ _).trans ?_
    exact dropDup_perm (hperm.flatMap_right (readRows fs))
  have hidem : sortValues sc (sortValues sc
      ⟨C, dropDup ((sortFiles S).flatMap (readRows fs))⟩)
      = sortValues sc ⟨C, dropDup ((sortFiles S).flatMap (readRows fs))⟩ :=
    sortValues_idem sc _
  constructor
  · -- monthly tier
    have hsF : sortStepMonthly sc (mergedTable
        ((sortFiles S).map (fun f => (fs.lookup f).getD ⟨[], []⟩)))
        = some (sortValues sc ⟨C, dropDup ((sortFiles S).flatMap (readRows fs))⟩) := by
      rw [hmt]
      exact sortStepMonthly_present sc _ hscne hsub
    have hsB : sortStepMonthly sc
        (sortValues sc ⟨C, dropDup ((sortFiles S).flatMap (readRows fs))⟩)
        = some (sortValues sc ⟨C, dropDup ((sortFiles S).flatMap (readRows fs))⟩) := by
      rw [sortStepMonthly_present sc _ hscne (by rw [hcolsW]; exact hsub), hidem]
    have h := mergeCore_success fs S (monthlyOutputPath tgt k) _ _
      (sortValues sc ⟨C, dropDup ((sortFiles S).flatMap (readRows fs))⟩)
      hnd hne hpres1 hout1 hsF hsB
    refine ⟨by rw [show merge_and_validate noFaults fs k S tgt sc
        = mergeCore noFaults fs S (monthlyOutputPath tgt k) _ _ from rfl, h.1], ?_⟩
    exact ⟨sortValues sc ⟨C, dropDup ((sortFiles S).flatMap (readRows fs))⟩,
      h.2, hidem, rfl, hWperm⟩
  · -- yearly tier
    have hsF : (fun df => some (sortStepYearly sc df)) (mergedTable
        ((sortFiles S).map (fun f => (fs.lookup f).getD ⟨[], []⟩)))
        = some (sortValues sc ⟨C, dropDup ((sortFiles S).flatMap (readRows fs))⟩) := by
      show some (sortStepYearly sc _) = _
      rw [hmt, sortStepYearly_present sc _ hscne hsub]
    have hsB : (fun df => some (sortBackYearly sc df))
        (sortValues sc ⟨C, dropDup ((sortFiles S).flatMap (readRows fs))⟩)
        = some (sortValues sc ⟨C, dropDup ((sortFiles S).flatMap (readRows fs))⟩) := by
      show some (sortBackYearly sc _) = _
      rw [sortBackYearly_present sc _ hscne (by rw [hcolsW]; exact hsub), hidem]
    have h := mergeCore_success fs S (yearlyOutputPath tgt k)
      (fun df => some (sortStepYearly sc df)) (fun df => some (sortBackYearly sc df))
      (sortValues sc ⟨C, dropDup ((sortFiles S).flatMap (readRows fs))⟩)
      hnd hne hpres1 hout2 hsF hsB
    refine ⟨by rw [show merge_yearly_and_validate noFaults fs k S tgt sc
        = mergeCore noFaults fs S (yearlyOutputPath tgt k) _ _ from rfl, h.1], ?_⟩
    exact ⟨sortValues sc ⟨C, dropDup ((sortFiles S).flatMap (readRows fs))⟩,
      h.2, hidem, rfl, hWperm⟩

/-- Witness for C2 on two concrete daily shards: both tiers commit. -/
theorem C2_lossless_roundtrip_witness :
    (merge_and_validate noFaults exFreshFS "2020-01" [exPathA, exPathB] "data"
      ["symbol", "date"]).ret = true
    ∧ (merge_yearly_and_validate noFaults exFreshFS "2020-01" [exPathA, exPathB] "data"
      ["symbol", "date"]).ret = true := by
  have h := C2_lossless_roundtrip exFreshFS [exPathA, exPathB] "2020-01" "data"
    ["symbol", "date"] ["symbol", "date"] (by decide) (by decide) (by decide) (by decide)
    (by decide)
    (by
      intro f hf
      simp only [List.mem_cons, List.not_mem_nil, or_false] at hf
      rcases hf with rfl | rfl
      · exact ⟨exShardA, by decide⟩
      · exact ⟨exShardB, by decide⟩)
    (by decide) (by decide)
  exact ⟨h.1.1, h.2.1⟩

/-- C6 (amended): when every configured SortKey column is absent from
the shards' common schema, the yearly tier skips the sort with a
warning and completes — the committed candidate holds exactly the
deduplicated, unsorted concatenation — while the monthly tier sorts
unconditionally, the missing column raises `KeyError`, and the job
fails with the filesystem untouched and nothing written. -/
theorem C6_missing_sortkey_behavior (fs : FS) (S : List String) (k tgt : String)
    (sc C : List String)
    (hne : S ≠ []) (hnd : S.Nodup) (hCnd : C.Nodup)
    (hscne : sc ≠ []) (hmiss : ∀ c ∈ sc, ¬ c ∈ C)
    (hpres : ∀ f ∈ S, ∃ df, fs.lookup f = some df ∧ df.cols = C ∧
      ∀ r ∈ df.rows, r.length = C.length)
    (hout2 : yearlyOutputPath tgt k ∉ S) :
    ((merge_yearly_and_validate noFaults fs k S tgt sc).ret = true
      ∧ (merge_yearly_and_validate noFaults fs k S tgt sc).fs.lookup
          (yearlyOutputPath tgt k)
        = some ⟨C, dropDup ((sortFiles S).flatMap (readRows fs))⟩)
    ∧ merge_and_validate noFaults fs k S tgt sc = ⟨fs, false, false, [], .sortFail⟩ := by
  have hperm : (sortFiles S).Perm S := List.perm_insertionSort fileLE S
  have hpres1 : ∀ f ∈ S, ∃ df, fs.lookup f = some df :=
    fun f hf => ⟨(hpres f hf).choose, (hpres f hf).choose_spec.1⟩
  have hlook : ∀ f ∈ sortFiles S, ((fs.lookup f).getD ⟨[], []⟩).cols = C
      ∧ ∀ r ∈ ((fs.lookup f).getD ⟨[], []⟩).rows, r.length = C.length := by
    intro f hf
    obtain ⟨df, hdf, hcols, hlen⟩ := hpres f (hperm.mem_iff.mp hf)
    rw [hdf]
    exact ⟨hcols, hlen⟩
  have hsne : sortFiles S ≠ [] := by
    intro h
    exact hne ((h ▸ hperm.symm : S.Perm []).eq_nil)
  have hdfs_ne : (sortFiles S).map (fun f => (fs.lookup f).getD ⟨[], []⟩) ≠ [] := by
    simp [List.map_eq_nil_iff, hsne]
  have hdfs_cols : ∀ df ∈ (sortFiles S).map (fun f => (fs.lookup f).getD ⟨[], []⟩),
      df.cols = C := by
    intro df hdf
    obtain ⟨f, hf, rfl⟩ := List.mem_map.mp hdf
    exact (hlook f hf).1
  have hdfs_len : ∀ df ∈ (sortFiles S).map (fun f => (fs.lookup f).getD ⟨[], []⟩),
      ∀ r ∈ df.rows, r.length = C.length := by
    intro df hdf
    obtain ⟨f, hf, rfl⟩ := List.mem_map.mp hdf
    exact (hlook f hf).2
  have hmt : mergedTable ((sortFiles S).map (fun f => (fs.lookup f).getD ⟨[], []⟩))
      = ⟨C, dropDup ((sortFiles S).flatMap (readRows fs))⟩ := by
    rw [mergedTable_uniform C hCnd _ hdfs_ne hdfs_cols hdfs_len]
    simp only [List.flatMap_map]
    rfl
  constructor
  · -- yearly tier: sort skipped, merge committed
    have hsF : (fun df => some (sortStepYearly sc df)) (mergedTable
        ((sortFiles S).map (fun f => (fs.lookup f).getD ⟨[], []⟩)))
        = some (⟨C, dropDup ((sortFiles S).flatMap (readRows fs))⟩ : DF) := by
      show some (sortStepYearly sc _) = _
      rw [hmt, sortStepYearly_allMissing sc _ hmiss]
    have hsB : (fun df => some (sortBackYearly sc df))
        (⟨C, dropDup ((sortFiles S).flatMap (readRows fs))⟩ : DF)
        = some (⟨C, dropDup ((sortFiles S).flatMap (readRows fs))⟩ : DF) := by
      show some (sortBackYearly sc _) = _
      rw [sortBackYearly_allMissing sc _ hmiss]
    have h := mergeCore_success fs S (yearlyOutputPath tgt k)
      (fun df => some (sortStepYearly sc df)) (fun df => some (sortBackYearly sc df))
      ⟨C, dropDup ((sortFiles S).flatMap (readRows fs))⟩
      hnd hne hpres1 hout2 hsF hsB
    exact ⟨by rw [show merge_yearly_and_validate noFaults fs k S tgt sc
        = mergeCore noFaults fs S (yearlyOutputPath tgt k) _ _ from rfl, h.1], h.2⟩
  · -- monthly tier: KeyError, job failed, nothing written
    have hpres2 : ∀ f ∈ sortFiles S, ∃ df, fs.lookup f = some df :=
      fun f hf => hpres1 f (hperm.mem_iff.mp hf)
    have hra : readAll noFaults fs (sortFiles S)
        = some ((sortFiles S).map (fun f => (fs.lookup f).getD ⟨[], []⟩)) :=
      readAll_noFaults fs _ hpres2
    have he : ((sortFiles S).map (fun f => (fs.lookup f).getD ⟨[], []⟩)).isEmpty
        = false := by
      cases h : sortFiles S with
      | nil => exact absurd h hsne
      | cons f rest => rfl
    obtain ⟨c, hc⟩ := List.exists_mem_of_ne_nil sc hscne
    have hs : sortStepMonthly sc (mergedTable
        ((sortFiles S).map (fun f => (fs.lookup f).getD ⟨[], []⟩))) = none := by
      rw [hmt]
      exact sortStepMonthly_missing sc _ ⟨c, hc, hmiss c hc⟩
    exact mergeCore_eq_sortFail hra he hs

/-- Shard lacking both SortKey columns. -/
def exShardNoKey : DF := ⟨["a"], [[some 5]]⟩

/-- Witness for C6 (amended) on one concrete shard without the SortKey
columns: the yearly merge commits an unsorted candidate, the monthly
merge fails leaving the filesystem unchanged. -/
theorem C6_missing_sortkey_behavior_witness :
    (merge_yearly_and_validate noFaults [(exPathA, exShardNoKey)] "2020" [exPathA] "data"
      ["symbol", "date"]).ret = true
    ∧ merge_and_validate noFaults [(exPathA, exShardNoKey)] "2020" [exPathA] "data"
      ["symbol", "date"]
      = ⟨[(exPathA, exShardNoKey)], false, false, [], .sortFail⟩ := by
  have h := C6_missing_sortkey_behavior [(exPathA, exShardNoKey)] [exPathA] "2020" "data"
    ["symbol", "date"] ["a"] (by decide) (by decide) (by decide) (by decide) (by decide)
    (by
      intro f hf
      simp only [List.mem_cons, List.not_mem_nil, or_false] at hf
      rcases hf with rfl
      exact ⟨exShardNoKey, by decide⟩)
    (by decide)
  exact ⟨h.1.1, h.2⟩

/-! ### Catalog characterization -/

theorem lookupGroup_addToGroup (gs : List (String × List String)) (k k2 f : String) :
    lookupGroup (addToGroup gs k2 f) k
      = if k2 = k then lookupGroup gs k ++ [f] else lookupGroup gs k := by
  induction gs with
  | nil => by_cases h : k2 = k <;> simp [addToGroup, lookupGroup, h]
  | cons e rest ih =>
      obtain ⟨k0, ps⟩ := e
      by_cases h0 : k0 = k2
      · by_cases hk : k0 = k
        · have : k2 = k := h0 ▸ hk
          simp [addToGroup, lookupGroup, h0, hk, this]
        · have : ¬ k2 = k := fun h => hk (h0.symm ▸ h : k0 = k)
          simp [addToGroup, lookupGroup, h0, hk, this]
      · by_cases hk : k0 = k
        · have hk2 : ¬ k2 = k := fun h => h0 (hk.trans h.symm)
          have hkk2 : ¬ k = k2 := fun h => hk2 h.symm
          simp [addToGroup, lookupGroup, h0, hk, hk2, hkk2]
        · simp [addToGroup, lookupGroup, h0, hk, ih]

theorem lookupGroup_foldl (keyOf : String → Option String) :
    ∀ (L : List String) (gs : List (String × List String)) (k : String),
      lookupGroup (L.foldl (fun gs2 f =>
        match keyOf f with
        | some k2 => addToGroup gs2 k2 f
        | none => gs2) gs) k
      = lookupGroup gs k ++ L.filter (fun f => keyOf f == some k)
  | [], gs, k => by simp
  | f :: L, gs, k => by
    cases hk : keyOf f with
    | none =>
        simp only [List.foldl_cons, hk]
        rw [lookupGroup_foldl keyOf L gs k]
        simp [List.filter_cons, hk]
    | some k2 =>
        simp only [List.foldl_cons, hk]
        rw [lookupGroup_foldl keyOf L (addToGroup gs k2 f) k, lookupGroup_addToGroup]
        by_cases h : k2 = k
        · simp [h, List.filter_cons, hk]
        · simp [h, List.filter_cons, hk]

theorem lookupGroup_yearly_foldl (fs : FS) (dataDir : String) :
    ∀ (dirs : List String) (gs : List (String × List String)) (k : String),
      lookupGroup (dirs.foldl (fun gs d =>
        if isIntString d then
          (globParquet fs (dataDir ++ "/" ++ d)).foldl
            (fun gs2 f =>
              match yearKeyOfFile f with
              | some k2 => addToGroup gs2 k2 f
              | none => gs2) gs
        else gs) gs) k
      = lookupGroup gs k ++ dirs.flatMap (fun d =>
          if isIntString d then
            (globParquet fs (dataDir ++ "/" ++ d)).filter
              (fun f => yearKeyOfFile f == some k)
          else [])
  | [], gs, k => by simp
  | d :: dirs, gs, k => by
    by_cases hd : isIntString d
    · simp only [List.foldl_cons, if_pos hd]
      rw [lookupGroup_yearly_foldl fs dataDir dirs _ k, lookupGroup_foldl yearKeyOfFile]
      simp [hd, List.append_assoc]
    · simp only [List.foldl_cons, if_neg hd]
      rw [lookupGroup_yearly_foldl fs dataDir dirs gs k]
      simp [hd]

/-- C7 (amended): the catalog functions return each group's shard paths
in directory-enumeration order — exactly the matching glob hits in the
order the filesystem lists them, with no sorting — and determinism of
the merge output is instead established by the merge functions
themselves, which sort the file list before loading. -/
theorem C7_catalog_enumeration_order :
    (∀ (fs : FS) (dataDir year k : String),
      lookupGroup (get_monthly_groups fs dataDir year) k
        = (globParquet fs (dataDir ++ "/" ++ year)).filter
            (fun f => monthKeyOfFile f == some k))
    ∧ (∀ (fs : FS) (dataDir k : String),
      lookupGroup (get_yearly_groups fs dataDir) k
        = (subdirsOf fs dataDir).flatMap (fun d =>
            if isIntString d then
              (globParquet fs (dataDir ++ "/" ++ d)).filter
                (fun f => yearKeyOfFile f == some k)
            else []))
    ∧ (∀ (flt : Faults) (fs : FS) (k : String) (files : List String) (tgt : String)
        (sc : List String),
      merge_and_validate flt fs k files tgt sc
        = merge_and_validate flt fs k (sortFiles files) tgt sc
      ∧ merge_yearly_and_validate flt fs k files tgt sc
        = merge_yearly_and_validate flt fs k (sortFiles files) tgt sc) := by
  refine ⟨?_, ?_, ?_⟩
  · intro fs dataDir year k
    unfold get_monthly_groups
    rw [lookupGroup_foldl monthKeyOfFile]
    rfl
  · intro fs dataDir k
    unfold get_yearly_groups
    rw [lookupGroup_yearly_foldl fs dataDir]
    rfl
  · intro flt fs k files tgt sc
    have hperm : files.Perm (sortFiles files) :=
      (List.perm_insertionSort fileLE files).symm
    exact ⟨mergeCore_perm flt fs (monthlyOutputPath tgt k) _ _ hperm,
      mergeCore_perm flt fs (yearlyOutputPath tgt k) _ _ hperm⟩
